import Mathlib

/-!
# Simulated I/O expander (`arch/sim/src/sim/sim_ioexpander.c`)

A shallow embedding of the simulated GPIO expander driver and of the host
shim it calls (`arch/sim/src/sim/posix/sim_hostioexpander.c`), followed by
theorems about the embedded functions.

Conventions of the embedding

* `ioe_pinset_t` values are natural numbers; every place where C truncates
  to the width of `ioe_pinset_t` is an explicit `% 2 ^ w`.
* `int` results and `errno` values are integers.
* Pointers into `priv->cb[]` (the handles of `ioe_attach`) are slot indices;
  the `NULL` handle is `none`.
* Function pointers and `void *` arguments are natural numbers, `0` being
  `NULL`.
* `DEBUGASSERT` is compiled out (`CONFIG_DEBUG_ASSERTIONS` unset), the
  configuration in which `ioe_int_update` may pass `NULL` to `ioe_readpin`.
* `gpioinfo` / `gpioerr` logging has no effect on the state and is omitted.
-/

namespace SimIoexpander

/-! ## Configuration and types (`sim_ioexpander.h`) -/

/-- The two `CONFIG_` constants the driver is compiled with. They come from
the board configuration, which is not part of the sources, and are therefore
parameters of every function. -/
structure ioe_config where
  /-- Value of `CONFIG_IOEXPANDER_NPINS`. -/
  NPINS : Nat
  /-- Value of `CONFIG_IOEXPANDER_INT_NCALLBACKS`. -/
  NCALLBACKS : Nat
deriving DecidableEq, Repr

/-- Width in bits of `ioe_pinset_t`, following the `#if` ladder of the header:
`uint8_t`, `uint16_t`, `uint32_t`, `uint64_t`, and `uint8_t` again above 64
pins. -/
def pinset_bits (cfg : ioe_config) : Nat :=
  if cfg.NPINS ≤ 8 then 8
  else if cfg.NPINS ≤ 16 then 16
  else if cfg.NPINS ≤ 32 then 32
  else if cfg.NPINS ≤ 64 then 64
  else 8

def IOEXPANDER_DIRECTION_IN : Int := 0
def IOEXPANDER_DIRECTION_IN_PULLUP : Int := 1
def IOEXPANDER_DIRECTION_IN_PULLDOWN : Int := 2
def IOEXPANDER_DIRECTION_OUT : Int := 3
def IOEXPANDER_DIRECTION_OUT_OPENDRAIN : Int := 4

def IOEXPANDER_OPTION_INVERT : Int := 1
def IOEXPANDER_VAL_NORMAL : Nat := 0
def IOEXPANDER_VAL_INVERT : Nat := 1

def IOEXPANDER_OPTION_INTCFG : Int := 2
def IOEXPANDER_VAL_DISABLE : Nat := 0
def IOEXPANDER_VAL_LEVEL : Nat := 1
def IOEXPANDER_VAL_HIGH : Nat := 5
def IOEXPANDER_VAL_LOW : Nat := 9
def IOEXPANDER_VAL_EDGE : Nat := 2
def IOEXPANDER_VAL_RISING : Nat := 6
def IOEXPANDER_VAL_FALLING : Nat := 10
def IOEXPANDER_VAL_BOTH : Nat := 14

/-- The constant `PINSET_ALL`, that is `~((ioe_pinset_t)0)` converted back to
`ioe_pinset_t`. -/
def PINSET_ALL (cfg : ioe_config) : Nat := 2 ^ pinset_bits cfg - 1

def OK : Int := 0

/-- Modelled from the spec: `errno.h` is not part of the sources; `EINVAL` is
the invalid-argument error code (22 in NuttX). -/
def EINVAL : Int := 22

/-- Modelled from the spec: `errno.h` is not part of the sources; `ENOSYS` is
the not-supported error code (38 in NuttX). -/
def ENOSYS : Int := 38

/-! ## Pinset arithmetic at the C widths -/

/-- Value of `(ioe_pinset_t)1 << pin` once it is combined with, or stored
into, an `ioe_pinset_t`: the shift is carried out in the promoted type and
the result truncated to `w` bits. (For `pin` at or beyond the width of the
promoted type C leaves the shift undefined; callers below are only concerned
with `pin < w`.) -/
def pinbit (w pin : Nat) : Nat := (1 <<< pin) % 2 ^ w

/-- Value of `~x` for an `ioe_pinset_t` operand `x`, truncated to `w` bits. -/
def pinset_not (w x : Nat) : Nat := 2 ^ w - 1 - x % 2 ^ w

/-- Value of the `int` expression `1 << pin` (32-bit two's complement). For
`pin = 31` this is `INT_MIN`, as produced by gcc; for `pin ≥ 32` the C
standard leaves the shift undefined and the mathematical value is wrapped. -/
def int_shl1 (pin : Nat) : Int := Int.bmod ((2 : Int) ^ pin) (2 ^ 32)

/-- Conversion of an `int` to `ioe_pinset_t` (reduction modulo `2 ^ w`). -/
def int_to_pinset (w : Nat) (x : Int) : Nat := (x % (2 : Int) ^ w).toNat

/-! ## Driver state -/

/-- One entry of the callback table (`struct ioe_callback_s`). -/
structure ioe_callback_s where
  /-- Set of pin interrupts that will generate the callback. -/
  pinset : Nat
  /-- Saved callback function pointer, `0` is `NULL`. -/
  cbfunc : Nat
  /-- Callback argument, `0` is `NULL`. -/
  cbarg : Nat
deriving DecidableEq, Repr, Inhabited

/-- A zero-filled table entry; `cbfunc = NULL` marks it free. -/
def ioe_callback_s.zero : ioe_callback_s := ⟨0, 0, 0⟩

/-- Driver state (`struct ioe_dev_s`). The descriptor `fd`, the file name and
the timer / work-queue members take no part in the pin logic; the host is
passed separately to every function that calls it. -/
structure ioe_dev_s where
  pindir : List Nat
  /-- Pin value inversion. -/
  invert : Nat
  /-- Value of output pins. -/
  outval : Nat
  /-- Simulated input register. -/
  inval : Nat
  /-- Interrupt enable. -/
  intenab : Nat
  /-- Last pin inputs (for detection of changes). -/
  last : Nat
  /-- Bit encoded: 0=level 1=edge. -/
  trigger : Nat
  /-- Member `level[0]`: high / rising. -/
  level0 : Nat
  /-- Member `level[1]`: low / falling. -/
  level1 : Nat
  /-- Saved callback information, `cb[CONFIG_IOEXPANDER_INT_NCALLBACKS]`. -/
  cb : List ioe_callback_s
deriving DecidableEq, Repr

/-- Entry `priv->cb[i]`. -/
def ioe_dev_s.slot (priv : ioe_dev_s) (i : Nat) : ioe_callback_s :=
  priv.cb.getD i ioe_callback_s.zero

/-- A state is well formed for a configuration when its arrays have the
configured sizes and every pinset member fits `ioe_pinset_t`. -/
structure ioe_dev_s.wf (cfg : ioe_config) (priv : ioe_dev_s) : Prop where
  pindir_len : priv.pindir.length = cfg.NPINS
  cb_len : priv.cb.length = cfg.NCALLBACKS
  invert_lt : priv.invert < 2 ^ pinset_bits cfg
  outval_lt : priv.outval < 2 ^ pinset_bits cfg
  inval_lt : priv.inval < 2 ^ pinset_bits cfg
  intenab_lt : priv.intenab < 2 ^ pinset_bits cfg
  last_lt : priv.last < 2 ^ pinset_bits cfg
  trigger_lt : priv.trigger < 2 ^ pinset_bits cfg
  level0_lt : priv.level0 < 2 ^ pinset_bits cfg
  level1_lt : priv.level1 < 2 ^ pinset_bits cfg
  cb_lt : ∀ s ∈ priv.cb, s.pinset < 2 ^ pinset_bits cfg

/-! ## Host side (`sim_hostioexpander.c`) -/

/-- Outcome of requesting an input line handle and reading its value. -/
inductive line_read where
  /-- Both `ioctl` calls succeed and `data.values[0]` holds `v`. -/
  | value (v : Bool)
  /-- One of the `ioctl` calls returns `-1` with this `errno`. -/
  | error (errno : Int)
deriving DecidableEq, Repr

/-- The GPIO character device behind `fd`, as far as the shim can observe it:
what reading each line yields, whether driving a line fails, and the values
driven so far (oldest first). Line levels are taken to be stable for the
duration of one driver call. -/
structure host_s where
  line : Nat → line_read
  write_errno : Nat → Option Int
  written : List (Nat × Bool)

/-- Function `host_ioe_writepin`: returns the result code and the host after
the call. -/
def host_ioe_writepin (host : host_s) (pin : Nat) (value : Bool) : Int × host_s :=
  match host.write_errno pin with
  | some errno => (errno, host)
  | none => (0, { host with written := host.written ++ [(pin, value)] })

/-- Function `host_ioe_readpin`. The flag `value_null` tells whether the
`value` pointer is `NULL`; the second component is what is stored through the
pointer, if anything. -/
def host_ioe_readpin (host : host_s) (pin : Nat) (value_null : Bool) : Int × Option Bool :=
  if value_null then (0, none)
  else
    match host.line pin with
    | line_read.error errno => (errno, none)
    | line_read.value v => (0, some v)

/-- Function `host_ioe_direction`. -/
def host_ioe_direction (host : host_s) (pin : Nat) (direction : Int) : Int × host_s :=
  if direction = IOEXPANDER_DIRECTION_IN ∨ direction = IOEXPANDER_DIRECTION_IN_PULLUP
      ∨ direction = IOEXPANDER_DIRECTION_IN_PULLDOWN then
    let _ := host_ioe_readpin host pin true
    (0, host)
  else if direction = IOEXPANDER_DIRECTION_OUT
      ∨ direction = IOEXPANDER_DIRECTION_OUT_OPENDRAIN then
    (0, (host_ioe_writepin host pin false).2)
  else (0, host)

/-! ## Pin access (`sim_ioexpander.c`) -/

/-- Function `ioe_direction`. The store `priv->pindir[pin] = direction`
converts to `uint8_t`. -/
def ioe_direction (host : host_s) (priv : ioe_dev_s) (pin : Nat) (direction : Int) :
    ioe_dev_s × host_s × Int :=
  let priv1 := { priv with pindir := priv.pindir.set pin (direction % 256).toNat }
  let r := host_ioe_direction host pin direction
  (priv1, r.2, r.1)

/-- Function `ioe_option`; `value` is the `void *` argument read as
`uintptr_t`. -/
def ioe_option (cfg : ioe_config) (priv : ioe_dev_s) (pin : Nat) (opt : Int) (value : Nat) :
    ioe_dev_s × Int :=
  let w := pinset_bits cfg
  if opt = IOEXPANDER_OPTION_INVERT then
    if value = IOEXPANDER_VAL_INVERT then
      ({ priv with invert := (priv.invert ||| pinbit w pin) % 2 ^ w }, -ENOSYS)
    else
      ({ priv with invert := (priv.invert &&& pinset_not w (pinbit w pin)) % 2 ^ w }, -ENOSYS)
  else if opt = IOEXPANDER_OPTION_INTCFG then
    let bit := pinbit w pin
    if value = IOEXPANDER_VAL_HIGH then
      ({ priv with
          intenab := (priv.intenab ||| bit) % 2 ^ w
          trigger := (priv.trigger &&& pinset_not w bit) % 2 ^ w
          level0 := (priv.level0 ||| bit) % 2 ^ w
          level1 := (priv.level1 &&& pinset_not w bit) % 2 ^ w }, OK)
    else if value = IOEXPANDER_VAL_LOW then
      ({ priv with
          intenab := (priv.intenab ||| bit) % 2 ^ w
          trigger := (priv.trigger &&& pinset_not w bit) % 2 ^ w
          level0 := (priv.level0 &&& pinset_not w bit) % 2 ^ w
          level1 := (priv.level1 ||| bit) % 2 ^ w }, OK)
    else if value = IOEXPANDER_VAL_RISING then
      ({ priv with
          intenab := (priv.intenab ||| bit) % 2 ^ w
          trigger := (priv.trigger ||| bit) % 2 ^ w
          level0 := (priv.level0 ||| bit) % 2 ^ w
          level1 := (priv.level1 &&& pinset_not w bit) % 2 ^ w }, OK)
    else if value = IOEXPANDER_VAL_FALLING then
      ({ priv with
          intenab := (priv.intenab ||| bit) % 2 ^ w
          trigger := (priv.trigger ||| bit) % 2 ^ w
          level0 := (priv.level0 &&& pinset_not w bit) % 2 ^ w
          level1 := (priv.level1 ||| bit) % 2 ^ w }, OK)
    else if value = IOEXPANDER_VAL_BOTH then
      ({ priv with
          intenab := (priv.intenab ||| bit) % 2 ^ w
          trigger := (priv.trigger ||| bit) % 2 ^ w
          level0 := (priv.level0 ||| bit) % 2 ^ w
          level1 := (priv.level1 ||| bit) % 2 ^ w }, OK)
    else if value = IOEXPANDER_VAL_DISABLE then
      ({ priv with trigger := (priv.trigger &&& pinset_not w bit) % 2 ^ w }, OK)
    else (priv, -EINVAL)
  else (priv, -ENOSYS)

/-- Function `ioe_writepin`. The value handed to the host is
`(value ^ priv->invert) == 1`, with `value` promoted to an integer. -/
def ioe_writepin (cfg : ioe_config) (host : host_s) (priv : ioe_dev_s) (pin : Nat)
    (value : Bool) : ioe_dev_s × host_s × Int :=
  let w := pinset_bits cfg
  let priv1 :=
    if value = decide ((priv.invert >>> pin) &&& 1 = 0) then
      { priv with outval := (priv.outval ||| pinbit w pin) % 2 ^ w }
    else
      { priv with outval := (priv.outval &&& pinset_not w (pinbit w pin)) % 2 ^ w }
  let r := host_ioe_writepin host pin (decide (value.toNat ^^^ priv.invert = 1))
  (priv1, r.2, r.1)

/-- Function `ioe_readpin`. The mask `1 << pin` is an `int`; it is converted
to `ioe_pinset_t` before being combined with `priv->inval` (for the narrow
types the combination happens in `int` and is truncated on assignment, which
yields the same bits). The third component is the local `inval`, which is
stored through `value` when that pointer is not `NULL`. -/
def ioe_readpin (cfg : ioe_config) (host : host_s) (priv : ioe_dev_s) (pin : Nat) :
    ioe_dev_s × Int × Bool :=
  let w := pinset_bits cfg
  let r := host_ioe_readpin host pin false
  let inval := r.2.getD false
  let priv1 :=
    if inval then
      { priv with inval := (priv.inval ||| int_to_pinset w (int_shl1 pin)) % 2 ^ w }
    else
      { priv with inval := (priv.inval &&& int_to_pinset w (-(int_shl1 pin) - 1)) % 2 ^ w }
  (priv1, r.1, inval)

/-- Loop of `ioe_attach`: `n` iterations remain, `i` is the loop index. -/
def ioe_attach_loop (pinset callback arg : Nat) :
    Nat → Nat → ioe_dev_s → ioe_dev_s × Option Nat
  | 0, _, priv => (priv, none)
  | n + 1, i, priv =>
    if (priv.slot i).cbfunc = 0 then
      ({ priv with cb := priv.cb.set i ⟨pinset, callback, arg⟩ }, some i)
    else ioe_attach_loop pinset callback arg n (i + 1) priv

/-- Function `ioe_attach`: the returned handle is the index of the slot the
returned pointer refers to, `none` for `NULL`. -/
def ioe_attach (cfg : ioe_config) (priv : ioe_dev_s) (pinset callback arg : Nat) :
    ioe_dev_s × Option Nat :=
  ioe_attach_loop pinset callback arg cfg.NCALLBACKS 0 priv

/-- Function `ioe_detach`, for a handle that points at slot `handle` of the
table. -/
def ioe_detach (priv : ioe_dev_s) (handle : Nat) : ioe_dev_s × Int :=
  ({ priv with cb := priv.cb.set handle ⟨0, 0, 0⟩ }, OK)

/-! ## Interrupt engine -/

def IOE_INT_ENABLED (w : Nat) (d : ioe_dev_s) (p : Nat) : Bool :=
  d.intenab &&& pinbit w p != 0

def IOE_INT_DISABLED (w : Nat) (d : ioe_dev_s) (p : Nat) : Bool :=
  d.intenab &&& pinbit w p == 0

def IOE_LEVEL_SENSITIVE (w : Nat) (d : ioe_dev_s) (p : Nat) : Bool :=
  d.trigger &&& pinbit w p == 0

def IOE_LEVEL_HIGH (w : Nat) (d : ioe_dev_s) (p : Nat) : Bool :=
  d.level0 &&& pinbit w p != 0

def IOE_LEVEL_LOW (w : Nat) (d : ioe_dev_s) (p : Nat) : Bool :=
  d.level1 &&& pinbit w p != 0

def IOE_EDGE_SENSITIVE (w : Nat) (d : ioe_dev_s) (p : Nat) : Bool :=
  d.trigger &&& pinbit w p != 0

def IOE_EDGE_RISING (w : Nat) (d : ioe_dev_s) (p : Nat) : Bool :=
  d.level0 &&& pinbit w p != 0

def IOE_EDGE_FALLING (w : Nat) (d : ioe_dev_s) (p : Nat) : Bool :=
  d.level1 &&& pinbit w p != 0

/-- The `while` loop of `IOE_GET_PIN_INDEX` run for at most `fuel`
iterations; `none` when the loop has not exited by then. -/
def IOE_GET_PIN_INDEX_loop : Nat → Nat → Nat → Option Nat
  | 0, _, _ => none
  | fuel + 1, pinset, pin =>
    if pinset &&& 1 = 0 then IOE_GET_PIN_INDEX_loop fuel (pinset >>> 1) (pin + 1)
    else some pin

/-- Macro `IOE_GET_PIN_INDEX`. Up to 64 pins it is the `while` loop, which is
given one iteration more than `ioe_pinset_t` has bits: after that many shifts
the operand is zero and the loop can no longer exit, so `none` stands for a
loop that does not terminate. Above 64 pins the macro is the identity. -/
def IOE_GET_PIN_INDEX (cfg : ioe_config) (pinset : Nat) : Option Nat :=
  if cfg.NPINS ≤ 64 then IOE_GET_PIN_INDEX_loop (pinset_bits cfg + 1) pinset 0
  else some pinset

/-- First loop of `ioe_int_update`: one `ioe_readpin` per attached callback;
`n` iterations remain, `i` is the loop index. -/
def ioe_int_update_read (cfg : ioe_config) (host : host_s) :
    Nat → Nat → ioe_dev_s → Option ioe_dev_s
  | 0, _, priv => some priv
  | n + 1, i, priv =>
    if (priv.slot i).cbfunc ≠ 0 then
      match IOE_GET_PIN_INDEX cfg (priv.slot i).pinset with
      | none => none
      | some pin => ioe_int_update_read cfg host n (i + 1) (ioe_readpin cfg host priv pin).1
    else ioe_int_update_read cfg host n (i + 1) priv

/-- Second loop of `ioe_int_update`, over the pins: `n` iterations remain,
`pin` is the loop index, `diff` and `input` are shifted right once per
iteration and `intstat` accumulates the result. -/
def ioe_int_update_pins (w : Nat) (priv : ioe_dev_s) :
    Nat → Nat → Nat → Nat → Nat → Nat
  | 0, _, _, _, intstat => intstat
  | n + 1, pin, diff, input, intstat =>
    let pinval : Bool := ((input ^^^ priv.invert) >>> pin) &&& 1 != 0
    let intstat1 :=
      if IOE_INT_DISABLED w priv pin then intstat
      else if IOE_EDGE_SENSITIVE w priv pin then
        if diff &&& 1 != 0 then
          if (!pinval && IOE_EDGE_FALLING w priv pin) || (pinval && IOE_EDGE_RISING w priv pin) then
            (intstat ||| pinbit w pin) % 2 ^ w
          else intstat
        else intstat
      else
        if (pinval && IOE_LEVEL_HIGH w priv pin) || (!pinval && IOE_LEVEL_LOW w priv pin) then
          (intstat ||| pinbit w pin) % 2 ^ w
        else intstat
    ioe_int_update_pins w priv n (pin + 1) (diff >>> 1) (input >>> 1) intstat1

/-- Function `ioe_int_update`: the state after the call and the returned
`intstat`; `none` when the function does not return. -/
def ioe_int_update (cfg : ioe_config) (host : host_s) (priv : ioe_dev_s) :
    Option (ioe_dev_s × Nat) :=
  match ioe_int_update_read cfg host cfg.NCALLBACKS 0 priv with
  | none => none
  | some priv1 =>
    let input := priv1.inval
    let diff := priv1.last ^^^ input
    let priv2 := { priv1 with last := input }
    some (priv2, ioe_int_update_pins (pinset_bits cfg) priv2 cfg.NPINS 0 diff input 0)

/-- One callback invocation made by `ioe_interrupt_work`: the slot whose
handler is called, the handler, and the two arguments it receives. -/
structure ioe_call where
  slot : Nat
  cbfunc : Nat
  pinset : Nat
  cbarg : Nat
deriving DecidableEq, Repr

/-- Callback loop of `ioe_interrupt_work`: `n` iterations remain, `i` is the
loop index; the result lists the invocations in the order they are made. -/
def ioe_interrupt_work_loop (priv : ioe_dev_s) (intstat : Nat) : Nat → Nat → List ioe_call
  | 0, _ => []
  | n + 1, i =>
    if (priv.slot i).cbfunc ≠ 0 then
      let match_ := intstat &&& (priv.slot i).pinset
      if match_ ≠ 0 then
        ⟨i, (priv.slot i).cbfunc, match_, (priv.slot i).cbarg⟩ ::
          ioe_interrupt_work_loop priv intstat n (i + 1)
      else ioe_interrupt_work_loop priv intstat n (i + 1)
    else ioe_interrupt_work_loop priv intstat n (i + 1)

/-- Function `ioe_interrupt_work`: the state after the poll and the callback
invocations made, in order. Handlers are external code; they are recorded, not
run. The closing test of the never-assigned `ret` only guards a log message. -/
def ioe_interrupt_work (cfg : ioe_config) (host : host_s) (priv : ioe_dev_s) :
    Option (ioe_dev_s × List ioe_call) :=
  match ioe_int_update cfg host priv with
  | none => none
  | some (priv1, intstat) =>
    if intstat ≠ 0 then some (priv1, ioe_interrupt_work_loop priv1 intstat cfg.NCALLBACKS 0)
    else some (priv1, [])

/-- The statically allocated `g_ioexpander` before `sim_ioe_initialize`: all
members zero. -/
def g_ioexpander (cfg : ioe_config) : ioe_dev_s :=
  { pindir := List.replicate cfg.NPINS 0
    invert := 0, outval := 0, inval := 0, intenab := 0, last := 0
    trigger := 0, level0 := 0, level1 := 0
    cb := List.replicate cfg.NCALLBACKS ioe_callback_s.zero }

/-- Function `sim_ioe_initialize` for a host file that opens successfully. -/
def sim_ioe_initialize (cfg : ioe_config) : ioe_dev_s :=
  { g_ioexpander cfg with
    trigger := PINSET_ALL cfg
    level0 := PINSET_ALL cfg
    level1 := PINSET_ALL cfg }

/-! ## Abstract trigger and call sequences used in the statements -/

/-- The per-pin interrupt trigger of the data model, the enumeration that the
four masks `intenab`, `trigger`, `level[0]`, `level[1]` encode. -/
inductive InterruptTrigger where
  | Disabled
  | LevelHigh
  | LevelLow
  | EdgeRising
  | EdgeFalling
  | EdgeBoth
deriving DecidableEq, Repr

/-- Decoding of the four mask bits of pin `p` with the driver's own test
macros: a level-sensitive pin is High or Low according to the one level bit
that is set, an edge-sensitive pin is Rising, Falling or, with both bits set,
Both. Bit patterns that encode no trigger give `none`. -/
def decode_trigger (w : Nat) (d : ioe_dev_s) (p : Nat) : Option InterruptTrigger :=
  if IOE_INT_DISABLED w d p then some InterruptTrigger.Disabled
  else if IOE_EDGE_SENSITIVE w d p then
    if IOE_EDGE_RISING w d p && IOE_EDGE_FALLING w d p then some InterruptTrigger.EdgeBoth
    else if IOE_EDGE_RISING w d p then some InterruptTrigger.EdgeRising
    else if IOE_EDGE_FALLING w d p then some InterruptTrigger.EdgeFalling
    else none
  else
    if IOE_LEVEL_HIGH w d p && IOE_LEVEL_LOW w d p then none
    else if IOE_LEVEL_HIGH w d p then some InterruptTrigger.LevelHigh
    else if IOE_LEVEL_LOW w d p then some InterruptTrigger.LevelLow
    else none

/-- Consecutive `ioe_attach` calls, one per `(pinset, callback, arg)` triple:
the final state and the handles returned, in call order. -/
def attach_all (cfg : ioe_config) : ioe_dev_s → List (Nat × Nat × Nat) → ioe_dev_s × List (Option Nat)
  | priv, [] => (priv, [])
  | priv, (pinset, callback, arg) :: rest =>
    let r := ioe_attach cfg priv pinset callback arg
    let r2 := attach_all cfg r.1 rest
    (r2.1, r.2 :: r2.2)

/-- The table entry an `ioe_attach` call with these arguments stores. -/
def attach_entry (x : Nat × Nat × Nat) : ioe_callback_s := ⟨x.1, x.2.1, x.2.2⟩

/-- A host on which line `pin` reads `v` and every other line reads low; no
`ioctl` fails. -/
def fixture_host (pin : Nat) (v : Bool) : host_s :=
  { line := fun q => line_read.value (decide (q = pin) && v)
    write_errno := fun _ => none
    written := [] }

/-- A host on which every line reads high; no `ioctl` fails. -/
def all_high_host : host_s :=
  { line := fun _ => line_read.value true
    write_errno := fun _ => none
    written := [] }

/-- Consecutive poll cycles (`ioe_int_update`), one per sample: during cycle
`k` line `pin` of the host reads the `k`-th sample. The result lists the
`intstat` returned by each cycle. -/
def poll_cycles (cfg : ioe_config) (pin : Nat) : ioe_dev_s → List Bool → List (Option Nat)
  | _, [] => []
  | priv, v :: rest =>
    match ioe_int_update cfg (fixture_host pin v) priv with
    | none => [none]
    | some r => some r.2 :: poll_cycles cfg pin r.1 rest

/-- An eight-pin expander with two callback slots. -/
def cfg8 : ioe_config := { NPINS := 8, NCALLBACKS := 2 }

/-- State reached from the zeroed device by configuring `pin` with the
interrupt option `value` and attaching a callback whose interest mask is that
one pin. -/
def configured_pin (cfg : ioe_config) (pin value : Nat) : ioe_dev_s :=
  (ioe_attach cfg (ioe_option cfg (g_ioexpander cfg) pin IOEXPANDER_OPTION_INTCFG value).1
    (1 <<< pin) 1 0).1

/-- A two-slot table whose slot 0 is occupied and whose slot 1 is free. -/
def table_one_free : ioe_dev_s :=
  { g_ioexpander cfg8 with cb := [⟨4, 17, 3⟩, ioe_callback_s.zero] }

/-- The dispatch rule in the words of the specification: for every occupied
slot, in slot order, the match of the pending set with the slot's interest
mask; when the match is non-empty the slot's handler is invoked with the match
and the slot's argument. -/
def dispatch_expected (priv : ioe_dev_s) (pending n : Nat) : List ioe_call :=
  ((List.range n).filter (fun i =>
      decide ((priv.slot i).cbfunc ≠ 0 ∧ pending &&& (priv.slot i).pinset ≠ 0))).map
    (fun i => ⟨i, (priv.slot i).cbfunc, pending &&& (priv.slot i).pinset, (priv.slot i).cbarg⟩)

/-- Two callbacks with disjoint interest masks: pins 0 and 1, and pins 4
and 5. -/
def table_disjoint : ioe_dev_s :=
  { g_ioexpander cfg8 with cb := [⟨3, 17, 100⟩, ⟨48, 18, 200⟩] }

/-- What an interrupt-configuration call is expected to leave behind: the
call `r` made on state `priv` returned `OK`, bit `p` of `intenab`, `trigger`,
`level[0]`, `level[1]` is `(e, t, l0, l1)`, pin `p` decodes to `trig`, and
every other bit of these four masks is as it was. -/
def intcfg_result (cfg : ioe_config) (priv : ioe_dev_s) (r : ioe_dev_s × Int) (p : Nat)
    (e t l0 l1 : Bool) (trig : InterruptTrigger) : Prop :=
  r.2 = OK ∧
  r.1.intenab.testBit p = e ∧ r.1.trigger.testBit p = t ∧
  r.1.level0.testBit p = l0 ∧ r.1.level1.testBit p = l1 ∧
  decode_trigger (pinset_bits cfg) r.1 p = some trig ∧
  ∀ i, i ≠ p → i < pinset_bits cfg →
    r.1.intenab.testBit i = priv.intenab.testBit i ∧
    r.1.trigger.testBit i = priv.trigger.testBit i ∧
    r.1.level0.testBit i = priv.level0.testBit i ∧
    r.1.level1.testBit i = priv.level1.testBit i

/-- The driver state after consecutive poll cycles (`ioe_int_update`), one
per sample, with line `pin` of the host reading the sample of the cycle. -/
def poll_state (cfg : ioe_config) (pin : Nat) : ioe_dev_s → List Bool → Option ioe_dev_s
  | priv, [] => some priv
  | priv, v :: rest =>
    match ioe_int_update cfg (fixture_host pin v) priv with
    | none => none
    | some r => poll_state cfg pin r.1 rest

/-- State reached from the zeroed device by configuring `pin` with the
interrupt option `value`, then with `IOEXPANDER_VAL_DISABLE`, and attaching a
callback whose interest mask is that one pin. -/
def disabled_pin (cfg : ioe_config) (pin value : Nat) : ioe_dev_s :=
  (ioe_attach cfg
    (ioe_option cfg (ioe_option cfg (g_ioexpander cfg) pin IOEXPANDER_OPTION_INTCFG value).1
      pin IOEXPANDER_OPTION_INTCFG IOEXPANDER_VAL_DISABLE).1
    (1 <<< pin) 1 0).1

/-- A table whose slot 0 holds a callback interested in pins 1 and 2. -/
def table_two_pins : ioe_dev_s :=
  { g_ioexpander cfg8 with cb := [⟨6, 17, 0⟩, ioe_callback_s.zero] }

/-- A state whose four interrupt masks have bits set on several pins. -/
def masks_state : ioe_dev_s :=
  { g_ioexpander cfg8 with intenab := 85, trigger := 15, level0 := 51, level1 := 170 }

/-- Whether the pin loop of `ioe_int_update` raises the interrupt of pin `i`,
given the `diff` bit it tests and the `pinval` it computed for that pin. -/
def pin_event (d : ioe_dev_s) (i : Nat) (diffbit pinval : Bool) : Bool :=
  d.intenab.testBit i &&
    (if d.trigger.testBit i then
      diffbit && ((!pinval && d.level1.testBit i) || (pinval && d.level0.testBit i))
    else (pinval && d.level0.testBit i) || (!pinval && d.level1.testBit i))

/-- A five-pin expander (`ioe_pinset_t` is `uint8_t`) with two callback
slots. -/
def cfg5 : ioe_config := { NPINS := 5, NCALLBACKS := 2 }

/-- A sixty-four-pin expander (`ioe_pinset_t` is `uint64_t`) with two callback
slots. -/
def cfg64 : ioe_config := { NPINS := 64, NCALLBACKS := 2 }

/-- The value most recently driven on line `pin` according to the write log,
if any. -/
def last_written (log : List (Nat × Bool)) (pin : Nat) : Option Bool :=
  (log.reverse.find? (fun e => e.1 == pin)).map Prod.snd

/-- The host once every line that has been driven reads back the value last
written to it; lines never driven read as before. -/
def reflect_host (host : host_s) : host_s :=
  { host with
    line := fun q =>
      match last_written host.written q with
      | some v => line_read.value v
      | none => host.line q }

/-- A host on which reading line `pin` fails with `errno`; every other line
reads low and no write fails. -/
def failing_host (pin : Nat) (errno : Int) : host_s :=
  { line := fun q => if q = pin then line_read.error errno else line_read.value false
    write_errno := fun _ => none
    written := [] }

/-- Function `ioe_writepin` followed by `ioe_readpin` of the same pin, the
host reflecting the written level back in between: the value the read
returns to the caller. -/
def write_then_read (cfg : ioe_config) (host : host_s) (priv : ioe_dev_s) (pin : Nat)
    (value : Bool) : Bool :=
  let w := ioe_writepin cfg host priv pin value
  (ioe_readpin cfg (reflect_host w.2.1) w.1 pin).2.2

/-- The zeroed device after `ioe_option(pin, IOEXPANDER_OPTION_INVERT,
IOEXPANDER_VAL_INVERT)`. -/
def inverted_pin (cfg : ioe_config) (pin : Nat) : ioe_dev_s :=
  (ioe_option cfg (g_ioexpander cfg) pin IOEXPANDER_OPTION_INVERT IOEXPANDER_VAL_INVERT).1

/-- A table whose slot 0 holds a callback interested in pin 3, with bit 3 of
`inval` set by an earlier read. -/
def table_pin3_high : ioe_dev_s :=
  { g_ioexpander cfg8 with inval := 8, cb := [⟨8, 17, 0⟩, ioe_callback_s.zero] }

/-- The zeroed sixty-four-pin device with every bit of `inval` set. -/
def all_inputs_high64 : ioe_dev_s :=
  { g_ioexpander cfg64 with inval := 2 ^ 64 - 1 }

/-- The zeroed eight-pin device with bit 0 of `outval` set by an earlier
write. -/
def output_high_pin0 : ioe_dev_s :=
  { g_ioexpander cfg8 with outval := 1 }

/-- A sixty-four-pin table whose slot 0 holds a callback interested in pin 31
only. -/
def table_pin31_64 : ioe_dev_s :=
  { g_ioexpander cfg64 with cb := [⟨2 ^ 31, 17, 0⟩, ioe_callback_s.zero] }

/-- The initialised eight-pin device after `IOEXPANDER_VAL_BOTH` and then
`IOEXPANDER_VAL_DISABLE` on pin 2. -/
def both_then_disabled : ioe_dev_s :=
  (ioe_option cfg8
    (ioe_option cfg8 ( sim_ioe_initialize cfg8) 2 IOEXPANDER_OPTION_INTCFG IOEXPANDER_VAL_BOTH).1
    2 IOEXPANDER_OPTION_INTCFG IOEXPANDER_VAL_DISABLE).1

/-- A table whose slot 0 was attached, detached, and then attached again with
a `NULL` callback: the slot is free but holds pinset 2 and argument 6. -/
def table_free_with_pinset : ioe_dev_s :=
  (ioe_attach cfg8 (ioe_detach table_one_free 0).1 2 0 6).1

/-! ## Lemmas on the callback table -/

theorem slot_eq (priv : ioe_dev_s) (i : Nat) :
    priv.slot i = (priv.cb[i]?).getD ioe_callback_s.zero := by
  simp [ioe_dev_s.slot, List.getD_eq_getElem?_getD]

theorem slot_set_self (priv : ioe_dev_s) (i : Nat) (e : ioe_callback_s)
    (h : i < priv.cb.length) :
    ({ priv with cb := priv.cb.set i e } : ioe_dev_s).slot i = e := by
  simp [slot_eq, List.getElem?_set_self h]

theorem slot_set_ne (priv : ioe_dev_s) (i j : Nat) (e : ioe_callback_s) (h : j ≠ i) :
    ({ priv with cb := priv.cb.set i e } : ioe_dev_s).slot j = priv.slot j := by
  simp [slot_eq, List.getElem?_set_ne (Ne.symm h)]

/-- The `ioe_attach` loop stops at the first free slot at or after its start
index. -/
theorem ioe_attach_loop_found (pinset callback arg : Nat) (priv : ioe_dev_s) (k : Nat) :
    ∀ (n i : Nat), i ≤ k → k < i + n → (priv.slot k).cbfunc = 0 →
      (∀ j, i ≤ j → j < k → (priv.slot j).cbfunc ≠ 0) →
      ioe_attach_loop pinset callback arg n i priv =
        ({ priv with cb := priv.cb.set k ⟨pinset, callback, arg⟩ }, some k) := by
  intro n
  induction n with
  | zero => intro i h1 h2; omega
  | succ n ih =>
    intro i h1 h2 hfree hocc
    by_cases hik : i = k
    · subst hik
      simp [ioe_attach_loop, hfree]
    · have hne : (priv.slot i).cbfunc ≠ 0 := hocc i (Nat.le_refl i) (by omega)
      simp only [ioe_attach_loop, hne, if_false]
      exact ih (i + 1) (by omega) (by omega) hfree (fun j hj1 hj2 => hocc j (by omega) hj2)

/-- The `ioe_attach` loop over occupied slots only changes nothing and yields
no handle. -/
theorem ioe_attach_loop_full (pinset callback arg : Nat) (priv : ioe_dev_s) :
    ∀ (n i : Nat), (∀ j, i ≤ j → j < i + n → (priv.slot j).cbfunc ≠ 0) →
      ioe_attach_loop pinset callback arg n i priv = (priv, none) := by
  intro n
  induction n with
  | zero => intro i _; rfl
  | succ n ih =>
    intro i hocc
    have hne : (priv.slot i).cbfunc ≠ 0 := hocc i (Nat.le_refl i) (by omega)
    simp only [ioe_attach_loop, hne, if_false]
    exact ih (i + 1) (fun j hj1 hj2 => hocc j (by omega) (by omega))

/-- A handle returned by the `ioe_attach` loop lies in the range it scanned. -/
theorem ioe_attach_loop_handle_lt (pinset callback arg : Nat) (priv : ioe_dev_s) :
    ∀ (n i h : Nat), (ioe_attach_loop pinset callback arg n i priv).2 = some h →
      i ≤ h ∧ h < i + n := by
  intro n
  induction n with
  | zero => intro i h hh; simp [ioe_attach_loop] at hh
  | succ n ih =>
    intro i h hh
    by_cases hfree : (priv.slot i).cbfunc = 0
    · simp [ioe_attach_loop, hfree] at hh
      omega
    · simp only [ioe_attach_loop, hfree, if_false] at hh
      have := ih (i + 1) h hh
      omega

/-- A handle returned by `ioe_attach` is the index of a slot of the table. -/
theorem ioe_attach_handle_lt (cfg : ioe_config) (priv : ioe_dev_s) (pinset callback arg h : Nat)
    (hh : (ioe_attach cfg priv pinset callback arg).2 = some h) : h < cfg.NCALLBACKS := by
  have := ioe_attach_loop_handle_lt pinset callback arg priv cfg.NCALLBACKS 0 h hh
  omega

theorem slot_append_left (priv : ioe_dev_s) (pre rest : List ioe_callback_s) (j : Nat)
    (hcb : priv.cb = pre ++ rest) (hj : j < pre.length) : priv.slot j ∈ pre := by
  have h1 : priv.slot j = pre.getD j ioe_callback_s.zero := by
    rw [ioe_dev_s.slot, hcb, List.getD_append pre rest ioe_callback_s.zero j hj]
  rw [h1, List.getD_eq_getElem?_getD, List.getElem?_eq_getElem hj]
  exact List.getElem_mem hj

theorem slot_append_replicate (priv : ioe_dev_s) (pre : List ioe_callback_s) (n : Nat)
    (hcb : priv.cb = pre ++ List.replicate n ioe_callback_s.zero) :
    priv.slot pre.length = ioe_callback_s.zero := by
  rw [slot_eq, hcb, List.getElem?_append, List.getElem?_replicate]
  simp only [Nat.lt_irrefl, if_false, Nat.sub_self]
  split <;> rfl

/-- Attaching non-`NULL` handlers to a table whose occupied slots form a
prefix fills the free slots in index order. -/
theorem attach_all_fill (cfg : ioe_config) :
    ∀ (args : List (Nat × Nat × Nat)) (pre : List ioe_callback_s) (priv : ioe_dev_s),
      (∀ s ∈ pre, s.cbfunc ≠ 0) → (∀ x ∈ args, x.2.1 ≠ 0) →
      priv.cb = pre ++ List.replicate args.length ioe_callback_s.zero →
      cfg.NCALLBACKS = pre.length + args.length →
      attach_all cfg priv args =
        ({ priv with cb := pre ++ args.map attach_entry },
          (List.range' pre.length args.length).map some) := by
  intro args
  induction args with
  | nil =>
    intro pre priv _ _ hcb _
    cases priv
    simp_all [attach_all]
  | cons x rest ih =>
    intro pre priv hpre hargs hcb hN
    obtain ⟨pinset, callback, arg⟩ := x
    have hfound := ioe_attach_loop_found pinset callback arg priv pre.length
      cfg.NCALLBACKS 0 (Nat.zero_le _) (by simp [hN])
      (by rw [slot_append_replicate priv pre _ hcb]; rfl)
      (fun j _ hj => hpre _ (slot_append_left priv pre _ j hcb hj))
    have hset : priv.cb.set pre.length ⟨pinset, callback, arg⟩ =
        (pre ++ [⟨pinset, callback, arg⟩]) ++ List.replicate rest.length ioe_callback_s.zero := by
      rw [hcb]
      simp [List.set_append, List.replicate_succ]
    have hcall : callback ≠ 0 := hargs (pinset, callback, arg) (List.mem_cons_self _ _)
    have hrec := ih (pre ++ [⟨pinset, callback, arg⟩])
      { priv with cb := priv.cb.set pre.length ⟨pinset, callback, arg⟩ }
      (by
        intro s hs
        rcases List.mem_append.mp hs with h | h
        · exact hpre s h
        · simp at h; subst h; exact hcall)
      (fun y hy => hargs y (List.mem_cons_of_mem _ hy))
      hset
      (by simp [hN]; omega)
    simp only [attach_all, ioe_attach, hfound, hrec]
    simp [attach_entry, List.range'_succ]

theorem list_set_getElem_same {α : Type} (l : List α) :
    ∀ (i : Nat) (h : i < l.length), l.set i (l[i]) = l := by
  induction l with
  | nil => intro i h; simp at h
  | cons x xs ih =>
    intro i h
    cases i with
    | zero => simp
    | succ i => simp [ih i (by simpa using h)]

theorem slot_mem (priv : ioe_dev_s) (j : Nat) (hj : j < priv.cb.length) :
    priv.slot j ∈ priv.cb :=
  slot_append_left priv priv.cb [] j (by simp) hj

theorem slot_getElem (priv : ioe_dev_s) (j : Nat) (hj : j < priv.cb.length) :
    priv.slot j = priv.cb[j] := by
  rw [slot_eq, List.getElem?_eq_getElem hj]
  rfl

/-! ## Theorems on the callback table -/

/-- C6: when the callback table has a free slot, `ioe_attach` returns a handle
to the lowest-indexed free slot, that slot then holds exactly the given
`(pinset, callback, arg)`, and nothing else in the driver state changes. -/
theorem ioe_attach_lowest_free_slot (cfg : ioe_config) (priv : ioe_dev_s)
    (pinset callback arg : Nat) (hlen : priv.cb.length = cfg.NCALLBACKS)
    (hfree : ∃ i, i < cfg.NCALLBACKS ∧ (priv.slot i).cbfunc = 0) :
    ∃ k, k < cfg.NCALLBACKS ∧ (priv.slot k).cbfunc = 0 ∧
      (∀ j, j < k → (priv.slot j).cbfunc ≠ 0) ∧
      (ioe_attach cfg priv pinset callback arg).2 = some k ∧
      (ioe_attach cfg priv pinset callback arg).1.slot k = ⟨pinset, callback, arg⟩ ∧
      (∀ j, j ≠ k → (ioe_attach cfg priv pinset callback arg).1.slot j = priv.slot j) ∧
      (ioe_attach cfg priv pinset callback arg).1 =
        { priv with cb := priv.cb.set k ⟨pinset, callback, arg⟩ } := by
  classical
  have hex : ∃ i, i < cfg.NCALLBACKS ∧ (priv.slot i).cbfunc = 0 := hfree
  refine ⟨Nat.find hex, (Nat.find_spec hex).1, (Nat.find_spec hex).2, ?_, ?_⟩
  · intro j hj hj0
    exact Nat.find_min hex hj ⟨Nat.lt_trans hj (Nat.find_spec hex).1, hj0⟩
  · have hlow : ∀ j, 0 ≤ j → j < Nat.find hex → (priv.slot j).cbfunc ≠ 0 := by
      intro j _ hj hj0
      exact Nat.find_min hex hj ⟨Nat.lt_trans hj (Nat.find_spec hex).1, hj0⟩
    have hrun := ioe_attach_loop_found pinset callback arg priv (Nat.find hex)
      cfg.NCALLBACKS 0 (Nat.zero_le _) (by simpa using (Nat.find_spec hex).1)
      (Nat.find_spec hex).2 hlow
    have hk : Nat.find hex < priv.cb.length := by rw [hlen]; exact (Nat.find_spec hex).1
    refine ⟨?_, ?_, ?_, ?_⟩
    · simp only [ioe_attach, hrun]
    · simp only [ioe_attach, hrun]
      exact slot_set_self priv _ _ hk
    · intro j hj
      simp only [ioe_attach, hrun]
      exact slot_set_ne priv _ j _ hj
    · simp only [ioe_attach, hrun]

theorem ioe_attach_lowest_free_slot_witness :
    (∃ i, i < cfg8.NCALLBACKS ∧ (table_one_free.slot i).cbfunc = 0) ∧
    ∃ k, k < cfg8.NCALLBACKS ∧ (table_one_free.slot k).cbfunc = 0 ∧
      (∀ j, j < k → (table_one_free.slot j).cbfunc ≠ 0) ∧
      (ioe_attach cfg8 table_one_free 2 23 5).2 = some k ∧
      (ioe_attach cfg8 table_one_free 2 23 5).1.slot k = ⟨2, 23, 5⟩ ∧
      (∀ j, j ≠ k → (ioe_attach cfg8 table_one_free 2 23 5).1.slot j = table_one_free.slot j) ∧
      (ioe_attach cfg8 table_one_free 2 23 5).1 =
        { table_one_free with cb := table_one_free.cb.set k ⟨2, 23, 5⟩ } :=
  ⟨⟨1, by decide, by decide⟩,
    ioe_attach_lowest_free_slot cfg8 table_one_free 2 23 5 (by decide) ⟨1, by decide, by decide⟩⟩

/-- C7: starting from an empty table of `CONFIG_IOEXPANDER_INT_NCALLBACKS`
slots, that many `ioe_attach` calls with non-`NULL` handlers all return a
handle (slots 0, 1, ... in turn); one more `ioe_attach` returns `NULL` and
leaves the state unchanged; and after `ioe_detach` of any one of the handles
the next `ioe_attach` returns a handle to that same slot. -/
theorem ioe_attach_capacity (cfg : ioe_config) (priv : ioe_dev_s)
    (args : List (Nat × Nat × Nat))
    (hempty : priv.cb = List.replicate cfg.NCALLBACKS ioe_callback_s.zero)
    (hlen : args.length = cfg.NCALLBACKS) (hfun : ∀ x ∈ args, x.2.1 ≠ 0) :
    (attach_all cfg priv args).2 = (List.range cfg.NCALLBACKS).map some ∧
    (∀ pinset callback arg,
      ioe_attach cfg (attach_all cfg priv args).1 pinset callback arg =
        ((attach_all cfg priv args).1, none)) ∧
    (∀ h, h < cfg.NCALLBACKS → ∀ pinset callback arg,
      (ioe_detach (attach_all cfg priv args).1 h).2 = OK ∧
      (ioe_attach cfg (ioe_detach (attach_all cfg priv args).1 h).1 pinset callback arg).2 =
        some h ∧
      (ioe_attach cfg (ioe_detach (attach_all cfg priv args).1 h).1
        pinset callback arg).1.slot h = ⟨pinset, callback, arg⟩) := by
  have hfill := attach_all_fill cfg args [] priv (by simp) hfun (by simp [hempty, hlen])
    (by simp [hlen])
  have hcb : (attach_all cfg priv args).1.cb = args.map attach_entry := by
    rw [hfill]; simp
  have hlen2 : (attach_all cfg priv args).1.cb.length = cfg.NCALLBACKS := by
    rw [hcb]; simp [hlen]
  have hocc : ∀ j, j < cfg.NCALLBACKS → ((attach_all cfg priv args).1.slot j).cbfunc ≠ 0 := by
    intro j hj
    have hm := slot_mem (attach_all cfg priv args).1 j (by rw [hlen2]; exact hj)
    rw [hcb] at hm
    obtain ⟨x, hx, hxe⟩ := List.mem_map.mp hm
    rw [← hxe]
    exact hfun x hx
  refine ⟨?_, ?_, ?_⟩
  · rw [hfill]
    simp [List.range_eq_range', hlen]
  · intro pinset callback arg
    exact ioe_attach_loop_full pinset callback arg _ cfg.NCALLBACKS 0
      (fun j _ hj => hocc j (by omega))
  · intro h hh pinset callback arg
    have hh2 : h < (attach_all cfg priv args).1.cb.length := by rw [hlen2]; exact hh
    have hrun := ioe_attach_loop_found pinset callback arg
      (ioe_detach (attach_all cfg priv args).1 h).1 h cfg.NCALLBACKS 0 (Nat.zero_le _)
      (by omega)
      (by
        have := slot_set_self (attach_all cfg priv args).1 h ⟨0, 0, 0⟩ hh2
        simp only [ioe_detach]
        rw [this])
      (by
        intro j _ hj
        have := slot_set_ne (attach_all cfg priv args).1 h j ⟨0, 0, 0⟩ (by omega)
        simp only [ioe_detach]
        rw [this]
        exact hocc j (by omega))
    refine ⟨rfl, ?_, ?_⟩
    · simp only [ioe_attach, hrun]
    · simp only [ioe_attach, hrun]
      exact slot_set_self _ h _ (by simp only [ioe_detach, List.length_set]; exact hh2)

theorem ioe_attach_capacity_witness :
    ((g_ioexpander cfg8).cb = List.replicate cfg8.NCALLBACKS ioe_callback_s.zero ∧
      [(1, 11, 0), (2, 12, 7)].length = cfg8.NCALLBACKS) ∧
    (attach_all cfg8 (g_ioexpander cfg8) [(1, 11, 0), (2, 12, 7)]).2 =
      (List.range cfg8.NCALLBACKS).map some ∧
    (∀ pinset callback arg,
      ioe_attach cfg8 (attach_all cfg8 (g_ioexpander cfg8) [(1, 11, 0), (2, 12, 7)]).1
          pinset callback arg =
        ((attach_all cfg8 (g_ioexpander cfg8) [(1, 11, 0), (2, 12, 7)]).1, none)) ∧
    (∀ h, h < cfg8.NCALLBACKS → ∀ pinset callback arg,
      (ioe_detach (attach_all cfg8 (g_ioexpander cfg8) [(1, 11, 0), (2, 12, 7)]).1 h).2 = OK ∧
      (ioe_attach cfg8
        (ioe_detach (attach_all cfg8 (g_ioexpander cfg8) [(1, 11, 0), (2, 12, 7)]).1 h).1
        pinset callback arg).2 = some h ∧
      (ioe_attach cfg8
        (ioe_detach (attach_all cfg8 (g_ioexpander cfg8) [(1, 11, 0), (2, 12, 7)]).1 h).1
        pinset callback arg).1.slot h = ⟨pinset, callback, arg⟩) :=
  ⟨⟨by decide, by decide⟩,
    ioe_attach_capacity cfg8 (g_ioexpander cfg8) [(1, 11, 0), (2, 12, 7)] (by decide)
      (by decide) (by decide)⟩

/-- C8: `ioe_detach` of a handle into the table (every handle returned by
`ioe_attach` is one, see `ioe_attach_handle_lt`) returns `OK`, leaves the
referenced slot with `pinset = 0`, `cbfunc = NULL`, `cbarg = NULL`, and leaves
every other slot and every other member of the driver state unchanged. -/
theorem ioe_detach_clears_slot (priv : ioe_dev_s) (h : Nat) (hh : h < priv.cb.length) :
    (ioe_detach priv h).2 = OK ∧
    (ioe_detach priv h).1.slot h = ⟨0, 0, 0⟩ ∧
    (∀ j, j ≠ h → (ioe_detach priv h).1.slot j = priv.slot j) ∧
    (ioe_detach priv h).1.cb.length = priv.cb.length ∧
    (ioe_detach priv h).1.pindir = priv.pindir ∧
    (ioe_detach priv h).1.invert = priv.invert ∧
    (ioe_detach priv h).1.outval = priv.outval ∧
    (ioe_detach priv h).1.inval = priv.inval ∧
    (ioe_detach priv h).1.intenab = priv.intenab ∧
    (ioe_detach priv h).1.last = priv.last ∧
    (ioe_detach priv h).1.trigger = priv.trigger ∧
    (ioe_detach priv h).1.level0 = priv.level0 ∧
    (ioe_detach priv h).1.level1 = priv.level1 := by
  refine ⟨rfl, slot_set_self priv h _ hh, fun j hj => slot_set_ne priv h j _ hj, ?_,
    rfl, rfl, rfl, rfl, rfl, rfl, rfl, rfl, rfl⟩
  simp [ioe_detach]

theorem ioe_detach_clears_slot_witness :
    0 < table_one_free.cb.length ∧
    (ioe_detach table_one_free 0).2 = OK ∧
    (ioe_detach table_one_free 0).1.slot 0 = ⟨0, 0, 0⟩ ∧
    (∀ j, j ≠ 0 → (ioe_detach table_one_free 0).1.slot j = table_one_free.slot j) ∧
    (ioe_detach table_one_free 0).1.cb.length = table_one_free.cb.length ∧
    (ioe_detach table_one_free 0).1.pindir = table_one_free.pindir ∧
    (ioe_detach table_one_free 0).1.invert = table_one_free.invert ∧
    (ioe_detach table_one_free 0).1.outval = table_one_free.outval ∧
    (ioe_detach table_one_free 0).1.inval = table_one_free.inval ∧
    (ioe_detach table_one_free 0).1.intenab = table_one_free.intenab ∧
    (ioe_detach table_one_free 0).1.last = table_one_free.last ∧
    (ioe_detach table_one_free 0).1.trigger = table_one_free.trigger ∧
    (ioe_detach table_one_free 0).1.level0 = table_one_free.level0 ∧
    (ioe_detach table_one_free 0).1.level1 = table_one_free.level1 :=
  ⟨by decide, ioe_detach_clears_slot table_one_free 0 (by decide)⟩

/-- C9 as stated fails: slot 0 of the table is freed by a first `ioe_detach`,
and a second `ioe_detach` of the same handle does not return a failure
result. -/
theorem ioe_detach_twice_not_failure :
    ((ioe_detach table_one_free 0).1.slot 0).cbfunc = 0 ∧
    ¬ ((ioe_detach (ioe_detach table_one_free 0).1 0).2 ≠ OK) := by
  decide

/-- C9, amended: `ioe_detach` of a handle whose slot is already free (`cbfunc`
unset, as after an earlier `ioe_detach`) is not treated as a usage error: it
returns `OK`, not a failure result. -/
theorem ioe_detach_free_slot_ok (priv : ioe_dev_s) (h : Nat) (_hh : h < priv.cb.length)
    (_hfree : (priv.slot h).cbfunc = 0) :
    (ioe_detach priv h).2 = OK := by
  simp only [ioe_detach]

theorem ioe_detach_free_slot_ok_witness :
    (0 < table_free_with_pinset.cb.length ∧ (table_free_with_pinset.slot 0).cbfunc = 0 ∧
      table_free_with_pinset.slot 0 = ⟨2, 0, 6⟩) ∧
    (ioe_detach table_free_with_pinset 0).2 = OK :=
  ⟨⟨by decide, by decide, by decide⟩,
    ioe_detach_free_slot_ok table_free_with_pinset 0 (by decide) (by decide)⟩

/-! ## Dispatch -/

theorem ioe_interrupt_work_loop_eq (priv : ioe_dev_s) (intstat : Nat) :
    ∀ (n i : Nat), ioe_interrupt_work_loop priv intstat n i =
      ((List.range' i n).filter (fun j =>
          decide ((priv.slot j).cbfunc ≠ 0 ∧ intstat &&& (priv.slot j).pinset ≠ 0))).map
        (fun j => ⟨j, (priv.slot j).cbfunc, intstat &&& (priv.slot j).pinset,
          (priv.slot j).cbarg⟩) := by
  intro n
  induction n with
  | zero => intro i; rfl
  | succ n ih =>
    intro i
    rw [List.range'_succ, ioe_interrupt_work_loop]
    by_cases h1 : (priv.slot i).cbfunc = 0
    · simp [h1, ih (i + 1)]
    · by_cases h2 : intstat &&& (priv.slot i).pinset = 0
      · simp [h1, h2, ih (i + 1)]
      · simp [h1, h2, ih (i + 1)]

theorem dispatch_expected_zero (priv : ioe_dev_s) (n : Nat) :
    dispatch_expected priv 0 n = [] := by
  simp [dispatch_expected]

/-- C5: `ioe_interrupt_work` runs the poll cycle and then invokes, in ascending
slot order and once each, exactly the occupied slots whose `pinset` meets the
pending set, with arguments `(pending & pinset, cbarg)`; free slots and slots
with an empty match are skipped, nothing is invoked for an empty pending set,
and of two callbacks with disjoint masks only the one whose mask contains the
pending pins is invoked. -/
theorem ioe_interrupt_work_dispatch (cfg : ioe_config) (host : host_s) (priv : ioe_dev_s)
    (pending : Nat) :
    ioe_interrupt_work cfg host priv =
      (ioe_int_update cfg host priv).map
        (fun r => (r.1, dispatch_expected r.1 r.2 cfg.NCALLBACKS)) ∧
    ioe_interrupt_work_loop priv pending cfg.NCALLBACKS 0 =
      dispatch_expected priv pending cfg.NCALLBACKS ∧
    List.Pairwise (fun a b : ioe_call => a.slot < b.slot)
      (ioe_interrupt_work_loop priv pending cfg.NCALLBACKS 0) ∧
    (∀ c : ioe_call, c ∈ ioe_interrupt_work_loop priv pending cfg.NCALLBACKS 0 ↔
      (c.slot < cfg.NCALLBACKS ∧ (priv.slot c.slot).cbfunc ≠ 0 ∧
        pending &&& (priv.slot c.slot).pinset ≠ 0 ∧
        c.cbfunc = (priv.slot c.slot).cbfunc ∧
        c.pinset = pending &&& (priv.slot c.slot).pinset ∧
        c.cbarg = (priv.slot c.slot).cbarg)) ∧
    ioe_interrupt_work_loop priv 0 cfg.NCALLBACKS 0 = [] ∧
    (∀ a b : ioe_callback_s, cfg.NCALLBACKS = 2 → priv.cb = [a, b] →
      a.cbfunc ≠ 0 → b.cbfunc ≠ 0 → a.pinset &&& b.pinset = 0 →
      pending ≠ 0 → pending &&& a.pinset = pending →
      ioe_interrupt_work_loop priv pending cfg.NCALLBACKS 0 =
        [⟨0, a.cbfunc, pending, a.cbarg⟩]) := by
  have hloop : ∀ (q : ioe_dev_s) (x : Nat),
      ioe_interrupt_work_loop q x cfg.NCALLBACKS 0 = dispatch_expected q x cfg.NCALLBACKS := by
    intro q x
    rw [ioe_interrupt_work_loop_eq, dispatch_expected, List.range_eq_range']
  refine ⟨?_, hloop priv pending, ?_, ?_, ?_, ?_⟩
  · unfold ioe_interrupt_work
    cases hupd : ioe_int_update cfg host priv with
    | none => rfl
    | some r =>
      obtain ⟨priv1, intstat⟩ := r
      by_cases h0 : intstat = 0
      · subst h0
        simp [dispatch_expected_zero]
      · simp [h0, hloop]
  · rw [hloop, dispatch_expected]
    refine List.Pairwise.map _ (fun a b hab => hab) ?_
    exact List.Pairwise.filter _ (List.pairwise_lt_range _)
  · intro c
    rw [hloop, dispatch_expected]
    simp only [List.mem_map, List.mem_filter, List.mem_range, decide_eq_true_eq]
    constructor
    · rintro ⟨i, ⟨hi, h1, h2⟩, rfl⟩
      exact ⟨hi, h1, h2, rfl, rfl, rfl⟩
    · rintro ⟨hi, h1, h2, h3, h4, h5⟩
      refine ⟨c.slot, ⟨hi, h1, h2⟩, ?_⟩
      cases c
      simp_all
  · rw [hloop, dispatch_expected_zero]
  · intro a b hN hcb ha hb hdisj hp hin
    have hb0 : pending &&& b.pinset = 0 := by
      rw [← hin, Nat.land_assoc, hdisj]
      simp
    have hs0 : priv.slot 0 = a := by simp [ioe_dev_s.slot, hcb]
    have hs1 : priv.slot 1 = b := by simp [ioe_dev_s.slot, hcb]
    rw [hN]
    simp [ioe_interrupt_work_loop, hs0, hs1, ha, hb, hb0, hin, hp]

theorem ioe_interrupt_work_dispatch_witness :
    (cfg8.NCALLBACKS = 2 ∧ table_disjoint.cb = [⟨3, 17, 100⟩, ⟨48, 18, 200⟩] ∧
      (3 : Nat) &&& 48 = 0 ∧ (2 : Nat) &&& 3 = 2) ∧
    ioe_interrupt_work_loop table_disjoint 2 cfg8.NCALLBACKS 0 = [⟨0, 17, 2, 100⟩] :=
  ⟨⟨by decide, by decide, by decide, by decide⟩,
    (ioe_interrupt_work_dispatch cfg8 all_high_host table_disjoint 2).2.2.2.2.2
      ⟨3, 17, 100⟩ ⟨48, 18, 200⟩ (by decide) (by decide) (by decide) (by decide) (by decide)
      (by decide) (by decide)⟩

/-! ## Pinset arithmetic -/

theorem pinset_bits_ge (cfg : ioe_config) (h : cfg.NPINS ≤ 64) : cfg.NPINS ≤ pinset_bits cfg := by
  unfold pinset_bits
  split_ifs <;> omega

theorem pinbit_eq (w p : Nat) (h : p < w) : pinbit w p = 2 ^ p := by
  rw [pinbit, Nat.one_shiftLeft, Nat.mod_eq_of_lt (Nat.pow_lt_pow_right (by decide) h)]

theorem testBit_pinbit (w p i : Nat) (h : p < w) : (pinbit w p).testBit i = decide (p = i) := by
  rw [pinbit_eq w p h, Nat.testBit_two_pow]

theorem testBit_pinset_not (w x i : Nat) :
    (pinset_not w x).testBit i = (decide (i < w) && !x.testBit i) := by
  have hlt : x % 2 ^ w < 2 ^ w := Nat.mod_lt _ (Nat.two_pow_pos w)
  rw [pinset_not, Nat.sub_sub, Nat.add_comm, Nat.testBit_two_pow_sub_succ hlt,
    Nat.testBit_mod_two_pow]
  cases decide (i < w) <;> simp

/-- Bits of a mask after `mask |= (ioe_pinset_t)1 << p`. -/
theorem testBit_set_pin (w x p i : Nat) (h : p < w) :
    ((x ||| pinbit w p) % 2 ^ w).testBit i =
      (decide (i < w) && (x.testBit i || decide (p = i))) := by
  rw [Nat.testBit_mod_two_pow, Nat.testBit_or, testBit_pinbit w p i h]

/-- Bits of a mask after `mask &= ~((ioe_pinset_t)1 << p)`. -/
theorem testBit_clear_pin (w x p i : Nat) (h : p < w) :
    ((x &&& pinset_not w (pinbit w p)) % 2 ^ w).testBit i =
      (decide (i < w) && (x.testBit i && !decide (p = i))) := by
  rw [Nat.testBit_mod_two_pow, Nat.testBit_and, testBit_pinset_not, testBit_pinbit w p i h]
  cases decide (i < w) <;> simp

theorem and_pinbit_ne_zero (w x p : Nat) (h : p < w) :
    (x &&& pinbit w p != 0) = x.testBit p := by
  rw [pinbit_eq w p h, Nat.and_two_pow]
  cases x.testBit p <;> simp

theorem and_pinbit_eq_zero (w x p : Nat) (h : p < w) :
    (x &&& pinbit w p == 0) = !x.testBit p := by
  rw [pinbit_eq w p h, Nat.and_two_pow]
  cases x.testBit p <;> simp

/-- The trigger a pin decodes to, in terms of its four mask bits. -/
theorem decode_trigger_bits (w : Nat) (d : ioe_dev_s) (p : Nat) (h : p < w) :
    decode_trigger w d p =
      if !d.intenab.testBit p then some InterruptTrigger.Disabled
      else if d.trigger.testBit p then
        if d.level0.testBit p && d.level1.testBit p then some InterruptTrigger.EdgeBoth
        else if d.level0.testBit p then some InterruptTrigger.EdgeRising
        else if d.level1.testBit p then some InterruptTrigger.EdgeFalling
        else none
      else
        if d.level0.testBit p && d.level1.testBit p then none
        else if d.level0.testBit p then some InterruptTrigger.LevelHigh
        else if d.level1.testBit p then some InterruptTrigger.LevelLow
        else none := by
  simp only [decode_trigger, IOE_INT_DISABLED, IOE_EDGE_SENSITIVE, IOE_EDGE_RISING,
    IOE_EDGE_FALLING, IOE_LEVEL_HIGH, IOE_LEVEL_LOW, and_pinbit_ne_zero w _ p h,
    and_pinbit_eq_zero w _ p h]

/-! ## Interrupt configuration -/

/-- C10: for a pin below `CONFIG_IOEXPANDER_NPINS` (at most 64 pins),
`ioe_option` with `IOEXPANDER_OPTION_INTCFG` and the value HIGH, LOW, RISING,
FALLING or BOTH returns `OK` and sets the pin's bit of
`(intenab, trigger, level[0], level[1])` to `(1,0,1,0)`, `(1,0,0,1)`,
`(1,1,1,0)`, `(1,1,0,1)`, `(1,1,1,1)` respectively, so that the pin decodes to
LevelHigh, LevelLow, EdgeRising, EdgeFalling, EdgeBoth; all other bits of the
four masks are unchanged. -/
theorem ioe_option_intcfg_bits (cfg : ioe_config) (priv : ioe_dev_s) (p : Nat)
    (hN : cfg.NPINS ≤ 64) (hp : p < cfg.NPINS) :
    intcfg_result cfg priv
      (ioe_option cfg priv p IOEXPANDER_OPTION_INTCFG IOEXPANDER_VAL_HIGH) p
      true false true false InterruptTrigger.LevelHigh ∧
    intcfg_result cfg priv
      (ioe_option cfg priv p IOEXPANDER_OPTION_INTCFG IOEXPANDER_VAL_LOW) p
      true false false true InterruptTrigger.LevelLow ∧
    intcfg_result cfg priv
      (ioe_option cfg priv p IOEXPANDER_OPTION_INTCFG IOEXPANDER_VAL_RISING) p
      true true true false InterruptTrigger.EdgeRising ∧
    intcfg_result cfg priv
      (ioe_option cfg priv p IOEXPANDER_OPTION_INTCFG IOEXPANDER_VAL_FALLING) p
      true true false true InterruptTrigger.EdgeFalling ∧
    intcfg_result cfg priv
      (ioe_option cfg priv p IOEXPANDER_OPTION_INTCFG IOEXPANDER_VAL_BOTH) p
      true true true true InterruptTrigger.EdgeBoth := by
  have hw : p < pinset_bits cfg := Nat.lt_of_lt_of_le hp (pinset_bits_ge cfg hN)
  have hset := fun x i => testBit_set_pin (pinset_bits cfg) x p i hw
  have hclr := fun x i => testBit_clear_pin (pinset_bits cfg) x p i hw
  refine ⟨?_, ?_, ?_, ?_, ?_⟩
  all_goals
    refine ⟨rfl, ?_, ?_, ?_, ?_, ?_, ?_⟩
    · simp [ioe_option, IOEXPANDER_OPTION_INTCFG, IOEXPANDER_OPTION_INVERT,
        IOEXPANDER_VAL_HIGH, IOEXPANDER_VAL_LOW, IOEXPANDER_VAL_RISING,
        IOEXPANDER_VAL_FALLING, IOEXPANDER_VAL_BOTH, hset, hclr, hw]
    · simp [ioe_option, IOEXPANDER_OPTION_INTCFG, IOEXPANDER_OPTION_INVERT,
        IOEXPANDER_VAL_HIGH, IOEXPANDER_VAL_LOW, IOEXPANDER_VAL_RISING,
        IOEXPANDER_VAL_FALLING, IOEXPANDER_VAL_BOTH, hset, hclr, hw]
    · simp [ioe_option, IOEXPANDER_OPTION_INTCFG, IOEXPANDER_OPTION_INVERT,
        IOEXPANDER_VAL_HIGH, IOEXPANDER_VAL_LOW, IOEXPANDER_VAL_RISING,
        IOEXPANDER_VAL_FALLING, IOEXPANDER_VAL_BOTH, hset, hclr, hw]
    · simp [ioe_option, IOEXPANDER_OPTION_INTCFG, IOEXPANDER_OPTION_INVERT,
        IOEXPANDER_VAL_HIGH, IOEXPANDER_VAL_LOW, IOEXPANDER_VAL_RISING,
        IOEXPANDER_VAL_FALLING, IOEXPANDER_VAL_BOTH, hset, hclr, hw]
    · rw [decode_trigger_bits _ _ _ hw]
      simp [ioe_option, IOEXPANDER_OPTION_INTCFG, IOEXPANDER_OPTION_INVERT,
        IOEXPANDER_VAL_HIGH, IOEXPANDER_VAL_LOW, IOEXPANDER_VAL_RISING,
        IOEXPANDER_VAL_FALLING, IOEXPANDER_VAL_BOTH, hset, hclr, hw]
    · intro i hi hiw
      have hpi : ¬ p = i := fun h => hi h.symm
      simp [ioe_option, IOEXPANDER_OPTION_INTCFG, IOEXPANDER_OPTION_INVERT,
        IOEXPANDER_VAL_HIGH, IOEXPANDER_VAL_LOW, IOEXPANDER_VAL_RISING,
        IOEXPANDER_VAL_FALLING, IOEXPANDER_VAL_BOTH, hset, hclr, hiw, hpi]

theorem ioe_option_intcfg_bits_witness :
    (cfg8.NPINS ≤ 64 ∧ 3 < cfg8.NPINS) ∧
    intcfg_result cfg8 masks_state
      (ioe_option cfg8 masks_state 3 IOEXPANDER_OPTION_INTCFG IOEXPANDER_VAL_HIGH) 3
      true false true false InterruptTrigger.LevelHigh ∧
    intcfg_result cfg8 masks_state
      (ioe_option cfg8 masks_state 3 IOEXPANDER_OPTION_INTCFG IOEXPANDER_VAL_LOW) 3
      true false false true InterruptTrigger.LevelLow ∧
    intcfg_result cfg8 masks_state
      (ioe_option cfg8 masks_state 3 IOEXPANDER_OPTION_INTCFG IOEXPANDER_VAL_RISING) 3
      true true true false InterruptTrigger.EdgeRising ∧
    intcfg_result cfg8 masks_state
      (ioe_option cfg8 masks_state 3 IOEXPANDER_OPTION_INTCFG IOEXPANDER_VAL_FALLING) 3
      true true false true InterruptTrigger.EdgeFalling ∧
    intcfg_result cfg8 masks_state
      (ioe_option cfg8 masks_state 3 IOEXPANDER_OPTION_INTCFG IOEXPANDER_VAL_BOTH) 3
      true true true true InterruptTrigger.EdgeBoth :=
  ⟨⟨by decide, by decide⟩, ioe_option_intcfg_bits cfg8 masks_state 3 (by decide) (by decide)⟩

/-! ## The pin loop of the poll cycle -/

theorem and_one_ne_zero (x : Nat) : (x &&& 1 != 0) = x.testBit 0 := by
  rw [Nat.testBit_zero, Nat.and_one_is_mod]
  rcases Nat.mod_two_eq_zero_or_one x with h | h <;> simp [h]

/-- One iteration of the pin loop, with the macros read as bit tests. -/
theorem ioe_int_update_pins_step (w : Nat) (priv : ioe_dev_s) (n pin diff input intstat : Nat)
    (hp : pin < w) :
    ioe_int_update_pins w priv (n + 1) pin diff input intstat =
      ioe_int_update_pins w priv n (pin + 1) (diff >>> 1) (input >>> 1)
        (if pin_event priv pin (diff.testBit 0) (input.testBit pin ^^ priv.invert.testBit pin)
          then (intstat ||| pinbit w pin) % 2 ^ w else intstat) := by
  rw [ioe_int_update_pins]
  congr 1
  simp only [IOE_INT_DISABLED, IOE_EDGE_SENSITIVE, IOE_EDGE_FALLING, IOE_EDGE_RISING,
    IOE_LEVEL_HIGH, IOE_LEVEL_LOW, and_pinbit_ne_zero w _ pin hp, and_pinbit_eq_zero w _ pin hp,
    and_one_ne_zero, Nat.testBit_shiftRight, Nat.testBit_xor, Nat.add_zero, pin_event]
  by_cases he : priv.intenab.testBit pin = true
  · by_cases ht : priv.trigger.testBit pin = true
    · by_cases hd : diff.testBit 0 = true
      · simp only [he, ht, hd, Bool.not_true, Bool.true_and, if_true]
        simp
      · simp only [he, ht, hd, Bool.not_true, Bool.true_and, if_true, Bool.false_and]
        simp
    · simp only [he, ht, Bool.not_true, Bool.true_and]
      simp
  · simp only [he, Bool.false_and]
    simp [he]

/-- Bits of the `intstat` the pin loop returns. Started at `pin` with `n`
iterations to go, iteration `i` tests bit `i - pin` of the current `diff` and
takes `pinval` from bit `i` of the current `input` shifted right by `i - pin`,
that is from bit `i - pin + i` of `input`. -/
theorem ioe_int_update_pins_testBit (w : Nat) (priv : ioe_dev_s) :
    ∀ (n pin diff input intstat i : Nat), pin + n ≤ w → intstat < 2 ^ pin →
      (ioe_int_update_pins w priv n pin diff input intstat).testBit i =
        if i < pin then intstat.testBit i
        else if i < pin + n then
          pin_event priv i (diff.testBit (i - pin))
            (input.testBit (i - pin + i) ^^ priv.invert.testBit i)
        else false := by
  intro n
  induction n with
  | zero =>
    intro pin diff input intstat i _ hlt
    simp only [ioe_int_update_pins, Nat.add_zero]
    by_cases hi : i < pin
    · simp [hi]
    · simp only [hi, if_false]
      exact Nat.testBit_lt_two_pow
        (Nat.lt_of_lt_of_le hlt (Nat.pow_le_pow_right (by decide) (by omega)))
  | succ n ih =>
    intro pin diff input intstat i hw hlt
    have hp : pin < w := by omega
    rw [ioe_int_update_pins_step w priv n pin diff input intstat hp]
    have hlt1 : intstat < 2 ^ (pin + 1) :=
      Nat.lt_of_lt_of_le hlt (Nat.pow_le_pow_right (by decide) (by omega))
    have hbit : pinbit w pin < 2 ^ (pin + 1) := by
      rw [pinbit_eq w pin hp]
      exact Nat.pow_lt_pow_right (by decide) (by omega)
    have hnew : (if pin_event priv pin (diff.testBit 0)
          (input.testBit pin ^^ priv.invert.testBit pin)
          then (intstat ||| pinbit w pin) % 2 ^ w else intstat) < 2 ^ (pin + 1) := by
      split
      · exact Nat.lt_of_le_of_lt (Nat.mod_le _ _) (Nat.or_lt_two_pow hlt1 hbit)
      · exact hlt1
    rw [ih (pin + 1) (diff >>> 1) (input >>> 1) _ i (by omega) hnew]
    have hpin : intstat.testBit pin = false := Nat.testBit_lt_two_pow hlt
    by_cases h1 : i < pin
    · have h2 : i < pin + 1 := by omega
      have h3 : i < w := by omega
      have h4 : ¬ pin = i := by omega
      simp only [h1, h2, if_true]
      split
      · rw [testBit_set_pin w intstat pin i hp]
        simp [h3, h4]
      · rfl
    · by_cases h2 : i = pin
      · subst h2
        have h3 : i < i + 1 := by omega
        have h4 : i < i + (n + 1) := by omega
        simp only [h3, h4, if_true, Nat.lt_irrefl, if_false, Nat.sub_self, Nat.zero_add]
        split
        · rename_i hev
          rw [testBit_set_pin w intstat i i hp, hev]
          simp [hp]
        · rename_i hev
          rw [hpin]
          simp only [Bool.not_eq_true] at hev
          exact hev.symm
      · have h3 : ¬ i < pin + 1 := by omega
        simp only [h1, h3, if_false]
        have h6 : 1 + (i - (pin + 1)) = i - pin := by omega
        have h7 : 1 + (i - (pin + 1) + i) = i - pin + i := by omega
        by_cases h5 : i < pin + (n + 1)
        · have h8 : i < pin + 1 + n := by omega
          simp only [h5, h8, if_true, Nat.testBit_shiftRight, h6, h7]
        · have h8 : ¬ i < pin + 1 + n := by omega
          simp only [h5, h8, if_false]

/-! ## The poll cycle on concrete inputs -/

/-- C1: pin 3 of an eight-pin expander is configured `IOEXPANDER_VAL_RISING`
with a callback attached on it, `inval = last = 0`, and the host reads
false, false, true, true, false over five poll cycles. On the third cycle the
sampled bit of pin 3 differs from `last`, the new logical level is true and
Rising is configured, yet `ioe_int_update` reports nothing: pin 3 is pending
on no cycle. -/
theorem ioe_int_update_rising_edge_missed :
    decode_trigger 8 (configured_pin cfg8 3 IOEXPANDER_VAL_RISING) 3 =
      some InterruptTrigger.EdgeRising ∧
    (poll_state cfg8 3 (configured_pin cfg8 3 IOEXPANDER_VAL_RISING) [false, false]).map
      (fun s => s.last.testBit 3) = some false ∧
    (poll_state cfg8 3 (configured_pin cfg8 3 IOEXPANDER_VAL_RISING) [false, false, true]).map
      (fun s => (s.inval.testBit 3, (s.inval ^^^ s.invert).testBit 3)) = some (true, true) ∧
    poll_cycles cfg8 3 (configured_pin cfg8 3 IOEXPANDER_VAL_RISING)
      [false, false, true, true, false] = [some 0, some 0, some 0, some 0, some 0] := by
  decide

/-- C2: pin 5 of an eight-pin expander is configured `IOEXPANDER_VAL_HIGH`
with a callback attached on it and the host reads true on four consecutive
poll cycles. After each cycle bit 5 of `inval` is set and the logical level of
the pin is true, yet `ioe_int_update` reports pin 5 on none of the cycles. -/
theorem ioe_int_update_level_high_missed :
    decode_trigger 8 (configured_pin cfg8 5 IOEXPANDER_VAL_HIGH) 5 =
      some InterruptTrigger.LevelHigh ∧
    (poll_state cfg8 5 (configured_pin cfg8 5 IOEXPANDER_VAL_HIGH) [true]).map
      (fun s => (s.inval ^^^ s.invert).testBit 5) = some true ∧
    poll_cycles cfg8 5 (configured_pin cfg8 5 IOEXPANDER_VAL_HIGH)
      [true, true, true, true] = [some 0, some 0, some 0, some 0] := by
  decide

/-- C3: pin 0 is configured `IOEXPANDER_VAL_HIGH` and then
`IOEXPANDER_VAL_DISABLE`; the second call returns `OK` but leaves the pin's
`intenab` bit set, and poll cycles on which the host reads high still report
pin 0 as pending. Likewise for pin 3 configured `IOEXPANDER_VAL_LOW`, then
disabled, with the host reading low. -/
theorem ioe_option_disable_still_pending :
    (ioe_option cfg8
      (ioe_option cfg8 (g_ioexpander cfg8) 0 IOEXPANDER_OPTION_INTCFG IOEXPANDER_VAL_HIGH).1
      0 IOEXPANDER_OPTION_INTCFG IOEXPANDER_VAL_DISABLE).2 = OK ∧
    (disabled_pin cfg8 0 IOEXPANDER_VAL_HIGH).intenab.testBit 0 = true ∧
    poll_cycles cfg8 0 (disabled_pin cfg8 0 IOEXPANDER_VAL_HIGH) [true, true] =
      [some 1, some 1] ∧
    (disabled_pin cfg8 3 IOEXPANDER_VAL_LOW).intenab.testBit 3 = true ∧
    poll_cycles cfg8 3 (disabled_pin cfg8 3 IOEXPANDER_VAL_LOW) [false, false] =
      [some 8, some 8] := by
  decide

/-- C4: slot 0 is occupied by a callback whose `pinset` contains pins 1 and 2
and the host reads high on every line. One poll cycle reads back pin 1 only:
afterwards bit 1 of `inval` is set and bit 2 is still clear, although the host
returns high for pin 2. -/
theorem ioe_int_update_reads_lowest_pin_only :
    (table_two_pins.slot 0).cbfunc ≠ 0 ∧
    (table_two_pins.slot 0).pinset.testBit 1 = true ∧
    (table_two_pins.slot 0).pinset.testBit 2 = true ∧
    all_high_host.line 2 = line_read.value true ∧
    (ioe_int_update cfg8 all_high_host table_two_pins).map
      (fun r => (r.1.inval.testBit 1, r.1.inval.testBit 2)) = some (true, false) := by
  decide

/-! ## Pin options -/

/-- C11: for a pin below `CONFIG_IOEXPANDER_NPINS` (at most 64 pins),
`ioe_option` with `IOEXPANDER_OPTION_INVERT` leaves bit `p` of `invert` set
when the value is `IOEXPANDER_VAL_INVERT` and clear otherwise, leaves every
other bit of `invert` as it was, and changes no other member of the driver
state. -/
theorem ioe_option_invert_bit (cfg : ioe_config) (priv : ioe_dev_s) (p v : Nat)
    (hN : cfg.NPINS ≤ 64) (hp : p < cfg.NPINS) :
    (ioe_option cfg priv p IOEXPANDER_OPTION_INVERT v).1.invert.testBit p =
      decide (v = IOEXPANDER_VAL_INVERT) ∧
    (∀ i, i ≠ p → i < pinset_bits cfg →
      (ioe_option cfg priv p IOEXPANDER_OPTION_INVERT v).1.invert.testBit i =
        priv.invert.testBit i) ∧
    (ioe_option cfg priv p IOEXPANDER_OPTION_INVERT v).1 =
      { priv with invert := (ioe_option cfg priv p IOEXPANDER_OPTION_INVERT v).1.invert } := by
  have hw : p < pinset_bits cfg := Nat.lt_of_lt_of_le hp (pinset_bits_ge cfg hN)
  by_cases hv : v = IOEXPANDER_VAL_INVERT
  · refine ⟨?_, ?_, ?_⟩
    · simp [ioe_option, hv, testBit_set_pin _ _ _ _ hw, hw]
    · intro i hi hiw
      have hpi : ¬ p = i := fun h => hi h.symm
      simp [ioe_option, hv, testBit_set_pin _ _ _ _ hw, hiw, hpi]
    · simp [ioe_option, hv]
  · refine ⟨?_, ?_, ?_⟩
    · simp [ioe_option, hv, testBit_clear_pin _ _ _ _ hw, hw]
    · intro i hi hiw
      have hpi : ¬ p = i := fun h => hi h.symm
      simp [ioe_option, hv, testBit_clear_pin _ _ _ _ hw, hiw, hpi]
    · simp [ioe_option, hv]

theorem ioe_option_invert_bit_witness :
    (cfg8.NPINS ≤ 64 ∧ 3 < cfg8.NPINS) ∧
    (ioe_option cfg8 masks_state 3 IOEXPANDER_OPTION_INVERT 1).1.invert.testBit 3 =
      decide (1 = IOEXPANDER_VAL_INVERT) ∧
    (∀ i, i ≠ 3 → i < pinset_bits cfg8 →
      (ioe_option cfg8 masks_state 3 IOEXPANDER_OPTION_INVERT 1).1.invert.testBit i =
        masks_state.invert.testBit i) ∧
    (ioe_option cfg8 masks_state 3 IOEXPANDER_OPTION_INVERT 1).1 =
      { masks_state with
        invert := (ioe_option cfg8 masks_state 3 IOEXPANDER_OPTION_INVERT 1).1.invert } :=
  ⟨⟨by decide, by decide⟩, ioe_option_invert_bit cfg8 masks_state 3 1 (by decide) (by decide)⟩

/-- C12: `ioe_option` with `IOEXPANDER_OPTION_INVERT` never returns `OK`: for
every state, pin and value the result is `-ENOSYS`, the initial value of
`ret`, which the inversion branch does not overwrite. On the zeroed
eight-pin device, inverting pin 2 updates `invert` and still reports
failure. -/
theorem ioe_option_invert_returns_enosys :
    (∀ (cfg : ioe_config) (priv : ioe_dev_s) (p v : Nat),
      (ioe_option cfg priv p IOEXPANDER_OPTION_INVERT v).2 = -ENOSYS) ∧
    (ioe_option cfg8 (g_ioexpander cfg8) 2 IOEXPANDER_OPTION_INVERT
      IOEXPANDER_VAL_INVERT).1.invert = 4 ∧
    (ioe_option cfg8 (g_ioexpander cfg8) 2 IOEXPANDER_OPTION_INVERT
      IOEXPANDER_VAL_INVERT).2 = -38 ∧
    (ioe_option cfg8 (g_ioexpander cfg8) 2 IOEXPANDER_OPTION_INVERT
      IOEXPANDER_VAL_INVERT).2 ≠ OK := by
  refine ⟨?_, by decide, by decide, by decide⟩
  intro cfg priv p v
  by_cases hv : v = IOEXPANDER_VAL_INVERT <;> simp [ioe_option, hv]

/-- C13: `ioe_option` with `IOEXPANDER_OPTION_INTCFG` and a value that is none
of DISABLE, HIGH, LOW, RISING, FALLING, BOTH returns `-EINVAL`; with an option
other than `IOEXPANDER_OPTION_INVERT` and `IOEXPANDER_OPTION_INTCFG` it returns
`-ENOSYS`; in both cases the driver state is returned unchanged. -/
theorem ioe_option_unrecognised (cfg : ioe_config) (priv : ioe_dev_s) (p : Nat) :
    (∀ v : Nat, v ≠ IOEXPANDER_VAL_DISABLE → v ≠ IOEXPANDER_VAL_HIGH →
      v ≠ IOEXPANDER_VAL_LOW → v ≠ IOEXPANDER_VAL_RISING → v ≠ IOEXPANDER_VAL_FALLING →
      v ≠ IOEXPANDER_VAL_BOTH →
      ioe_option cfg priv p IOEXPANDER_OPTION_INTCFG v = (priv, -EINVAL)) ∧
    (∀ (opt : Int) (v : Nat), opt ≠ IOEXPANDER_OPTION_INVERT → opt ≠ IOEXPANDER_OPTION_INTCFG →
      ioe_option cfg priv p opt v = (priv, -ENOSYS)) := by
  constructor
  · intro v h0 h1 h2 h3 h4 h5
    simp [ioe_option, IOEXPANDER_OPTION_INTCFG, IOEXPANDER_OPTION_INVERT, h0, h1, h2, h3, h4, h5]
  · intro opt v h1 h2
    simp [ioe_option, h1, h2]

theorem ioe_option_unrecognised_witness :
    ((7 : Nat) ≠ IOEXPANDER_VAL_DISABLE ∧ (7 : Nat) ≠ IOEXPANDER_VAL_HIGH ∧
      (7 : Nat) ≠ IOEXPANDER_VAL_LOW ∧ (7 : Nat) ≠ IOEXPANDER_VAL_RISING ∧
      (7 : Nat) ≠ IOEXPANDER_VAL_FALLING ∧ (7 : Nat) ≠ IOEXPANDER_VAL_BOTH ∧
      (3 : Int) ≠ IOEXPANDER_OPTION_INVERT ∧ (3 : Int) ≠ IOEXPANDER_OPTION_INTCFG) ∧
    ioe_option cfg8 masks_state 3 IOEXPANDER_OPTION_INTCFG 7 = (masks_state, -EINVAL) ∧
    ioe_option cfg8 masks_state 3 3 5 = (masks_state, -ENOSYS) :=
  ⟨⟨by decide, by decide, by decide, by decide, by decide, by decide, by decide, by decide⟩,
    (ioe_option_unrecognised cfg8 masks_state 3).1 7 (by decide) (by decide) (by decide)
      (by decide) (by decide) (by decide),
    (ioe_option_unrecognised cfg8 masks_state 3).2 3 5 (by decide) (by decide)⟩

/-! ## Pin index range -/

/-- C14 as stated fails: on a five-pin expander, pin index 6 is accepted by
every operation. `ioe_option` returns `OK` and sets bit 6 of `intenab`,
`ioe_writepin` sets bit 6 of `outval` and drives line 6 on the host,
`ioe_readpin` reads line 6 and sets bit 6 of `inval`, and `ioe_direction`
returns 0. -/
theorem ioe_pin_index_6_of_5_accepted :
    cfg5.NPINS ≤ 6 ∧
    (ioe_option cfg5 (g_ioexpander cfg5) 6 IOEXPANDER_OPTION_INTCFG IOEXPANDER_VAL_HIGH).2 = OK ∧
    (ioe_option cfg5 (g_ioexpander cfg5) 6 IOEXPANDER_OPTION_INTCFG
      IOEXPANDER_VAL_HIGH).1.intenab = 64 ∧
    (ioe_writepin cfg5 all_high_host (g_ioexpander cfg5) 6 true).1.outval = 64 ∧
    (ioe_writepin cfg5 all_high_host (g_ioexpander cfg5) 6 true).2.1.written = [(6, true)] ∧
    (ioe_writepin cfg5 all_high_host (g_ioexpander cfg5) 6 true).2.2 = 0 ∧
    (ioe_readpin cfg5 all_high_host (g_ioexpander cfg5) 6).1.inval = 64 ∧
    (ioe_readpin cfg5 all_high_host (g_ioexpander cfg5) 6).2.1 = 0 ∧
    (ioe_direction all_high_host (g_ioexpander cfg5) 6 IOEXPANDER_DIRECTION_IN).2.2 = 0 := by
  decide

/-- C14, amended: for a pin index at or above `CONFIG_IOEXPANDER_NPINS` no
operation returns a range error, the index is never compared with the pin
count. `ioe_option` returns the code fixed by the option and its value alone
(`OK`, `-EINVAL` or `-ENOSYS`, the same for every pin index), `ioe_direction`
returns 0, `ioe_writepin` drives line `p` of the host and returns the host's
result, and `ioe_readpin` reads line `p` of the host and returns the host's
result and value. -/
theorem ioe_pin_index_unchecked (cfg : ioe_config) (host : host_s) (priv : ioe_dev_s) (p : Nat)
    (_hp : cfg.NPINS ≤ p) :
    (∀ (opt : Int) (v q : Nat),
      (ioe_option cfg priv p opt v).2 = (ioe_option cfg priv q opt v).2) ∧
    (∀ (opt : Int) (v : Nat),
      (ioe_option cfg priv p opt v).2 = OK ∨ (ioe_option cfg priv p opt v).2 = -EINVAL ∨
        (ioe_option cfg priv p opt v).2 = -ENOSYS) ∧
    (∀ d : Int, (ioe_direction host priv p d).2.2 = 0) ∧
    (∀ v : Bool, host.write_errno p = none →
      (ioe_writepin cfg host priv p v).2.2 = 0 ∧
      ∃ x, (ioe_writepin cfg host priv p v).2.1.written = host.written ++ [(p, x)]) ∧
    (∀ (v : Bool) (e : Int), host.write_errno p = some e →
      (ioe_writepin cfg host priv p v).2.2 = e) ∧
    (∀ b : Bool, host.line p = line_read.value b →
      (ioe_readpin cfg host priv p).2 = (0, b)) ∧
    (∀ e : Int, host.line p = line_read.error e →
      (ioe_readpin cfg host priv p).2.1 = e) := by
  have hcode : ∀ (opt : Int) (v q : Nat),
      (ioe_option cfg priv q opt v).2 =
        if opt = IOEXPANDER_OPTION_INVERT then -ENOSYS
        else if opt = IOEXPANDER_OPTION_INTCFG then
          if v = IOEXPANDER_VAL_HIGH ∨ v = IOEXPANDER_VAL_LOW ∨ v = IOEXPANDER_VAL_RISING ∨
              v = IOEXPANDER_VAL_FALLING ∨ v = IOEXPANDER_VAL_BOTH ∨ v = IOEXPANDER_VAL_DISABLE
          then OK else -EINVAL
        else -ENOSYS := by
    intro opt v q
    unfold ioe_option
    simp only []
    split_ifs <;> simp_all
  refine ⟨?_, ?_, ?_, ?_, ?_, ?_, ?_⟩
  · intro opt v q
    rw [hcode opt v p, hcode opt v q]
  · intro opt v
    rw [hcode opt v p]
    split_ifs <;> simp
  · intro d
    simp only [ioe_direction, host_ioe_direction]
    split_ifs <;> rfl
  · intro v hw
    simp [ioe_writepin, host_ioe_writepin, hw]
  · intro v e hw
    simp [ioe_writepin, host_ioe_writepin, hw]
  · intro b hl
    simp [ioe_readpin, host_ioe_readpin, hl]
  · intro e hl
    simp [ioe_readpin, host_ioe_readpin, hl]

theorem ioe_pin_index_unchecked_witness :
    (cfg5.NPINS ≤ 6 ∧ all_high_host.write_errno 6 = none ∧
      all_high_host.line 6 = line_read.value true) ∧
    (ioe_option cfg5 (g_ioexpander cfg5) 6 IOEXPANDER_OPTION_INTCFG IOEXPANDER_VAL_HIGH).2 =
      (ioe_option cfg5 (g_ioexpander cfg5) 2 IOEXPANDER_OPTION_INTCFG IOEXPANDER_VAL_HIGH).2 ∧
    (ioe_direction all_high_host (g_ioexpander cfg5) 6 IOEXPANDER_DIRECTION_OUT).2.2 = 0 ∧
    ((ioe_writepin cfg5 all_high_host (g_ioexpander cfg5) 6 true).2.2 = 0 ∧
      ∃ x, (ioe_writepin cfg5 all_high_host (g_ioexpander cfg5) 6 true).2.1.written =
        all_high_host.written ++ [(6, x)]) ∧
    (ioe_readpin cfg5 all_high_host (g_ioexpander cfg5) 6).2 = (0, true) :=
  ⟨⟨by decide, rfl, rfl⟩,
    (ioe_pin_index_unchecked cfg5 all_high_host (g_ioexpander cfg5) 6 (by decide)).1
      IOEXPANDER_OPTION_INTCFG IOEXPANDER_VAL_HIGH 2,
    (ioe_pin_index_unchecked cfg5 all_high_host (g_ioexpander cfg5) 6 (by decide)).2.2.1
      IOEXPANDER_DIRECTION_OUT,
    (ioe_pin_index_unchecked cfg5 all_high_host (g_ioexpander cfg5) 6 (by decide)).2.2.2.1
      true rfl,
    (ioe_pin_index_unchecked cfg5 all_high_host (g_ioexpander cfg5) 6 (by decide)).2.2.2.2.2.1
      true rfl⟩

/-! ## Writing and reading a pin -/

theorem shiftRight_and_one_eq_zero (x p : Nat) :
    decide ((x >>> p) &&& 1 = 0) = !x.testBit p := by
  have h := and_one_ne_zero (x >>> p)
  rw [Nat.testBit_shiftRight, Nat.add_zero] at h
  by_cases hz : (x >>> p) &&& 1 = 0
  · have hb : x.testBit p = false := by rw [← h, hz]; rfl
    rw [hb, decide_eq_true hz]
    rfl
  · have hb : x.testBit p = true := by rw [← h]; exact bne_iff_ne.mpr hz
    rw [hb, decide_eq_false hz]
    rfl

/-- C15 as stated fails: with bit 2 of `invert` set, writing logical true to
pin 2 leaves bit 2 of `outval` clear, and writing logical false sets it. -/
theorem ioe_writepin_outval_not_logical :
    (inverted_pin cfg8 2).invert.testBit 2 = true ∧
    (ioe_writepin cfg8 all_high_host (inverted_pin cfg8 2) 2 true).1.outval.testBit 2 = false ∧
    (ioe_writepin cfg8 all_high_host (inverted_pin cfg8 2) 2 false).1.outval.testBit 2 = true := by
  decide

/-- C15, amended: for a pin below `CONFIG_IOEXPANDER_NPINS` (at most 64 pins),
after `ioe_writepin(p, v)` bit `p` of `outval` equals `v` XOR bit `p` of
`invert`, and every other bit of `outval` is unchanged. -/
theorem ioe_writepin_outval_bit (cfg : ioe_config) (host : host_s) (priv : ioe_dev_s)
    (p : Nat) (v : Bool) (hN : cfg.NPINS ≤ 64) (hp : p < cfg.NPINS) :
    (ioe_writepin cfg host priv p v).1.outval.testBit p = (v ^^ priv.invert.testBit p) ∧
    (∀ i, i ≠ p → i < pinset_bits cfg →
      (ioe_writepin cfg host priv p v).1.outval.testBit i = priv.outval.testBit i) := by
  have hw : p < pinset_bits cfg := Nat.lt_of_lt_of_le hp (pinset_bits_ge cfg hN)
  simp only [ioe_writepin, shiftRight_and_one_eq_zero]
  by_cases hc : v = !priv.invert.testBit p
  · simp only [hc, if_true]
    refine ⟨?_, ?_⟩
    · rw [testBit_set_pin _ _ _ _ hw]
      cases priv.invert.testBit p <;> simp [hw]
    · intro i hi hiw
      have hpi : ¬ p = i := fun h => hi h.symm
      rw [testBit_set_pin _ _ _ _ hw]
      simp [hiw, hpi]
  · simp only [hc, if_false]
    refine ⟨?_, ?_⟩
    · rw [testBit_clear_pin _ _ _ _ hw]
      cases v <;> cases hb : priv.invert.testBit p <;> simp_all
    · intro i hi hiw
      have hpi : ¬ p = i := fun h => hi h.symm
      rw [testBit_clear_pin _ _ _ _ hw]
      simp [hiw, hpi]

theorem ioe_writepin_outval_bit_witness :
    (cfg8.NPINS ≤ 64 ∧ 2 < cfg8.NPINS) ∧
    (ioe_writepin cfg8 all_high_host (inverted_pin cfg8 2) 2 true).1.outval.testBit 2 =
      (true ^^ (inverted_pin cfg8 2).invert.testBit 2) ∧
    (∀ i, i ≠ 2 → i < pinset_bits cfg8 →
      (ioe_writepin cfg8 all_high_host (inverted_pin cfg8 2) 2 true).1.outval.testBit i =
        (inverted_pin cfg8 2).outval.testBit i) :=
  ⟨⟨by decide, by decide⟩,
    ioe_writepin_outval_bit cfg8 all_high_host (inverted_pin cfg8 2) 2 true (by decide)
      (by decide)⟩

/-- C16: the value `ioe_writepin` hands to the host is `(value ^ invert) == 1`
on the whole mask. With only pin 2 inverted, writing logical false to pin 2
drives false (the claim says false XOR 1, true); with only pin 1 inverted,
writing logical true to pin 0 drives false although bit 0 of `invert` is
clear. -/
theorem ioe_writepin_host_value_whole_mask :
    (inverted_pin cfg8 2).invert.testBit 2 = true ∧
    (ioe_writepin cfg8 all_high_host (inverted_pin cfg8 2) 2 false).2.1.written =
      [(2, false)] ∧
    (inverted_pin cfg8 1).invert.testBit 0 = false ∧
    (ioe_writepin cfg8 all_high_host (inverted_pin cfg8 1) 0 true).2.1.written =
      [(0, false)] := by
  decide

/-- C17: with 64 pins the mask `1 << pin` of `ioe_readpin` is a 32-bit `int`.
Reading high on pin 31 of the zeroed device sets bits 31 to 63 of `inval`
(bit 40 among them), and reading low on pin 31 with all inputs high clears
bits 31 to 63; the value returned to the caller is the one read. -/
theorem ioe_readpin_pin31_of_64 :
    31 < cfg64.NPINS ∧
    (ioe_readpin cfg64 all_high_host (g_ioexpander cfg64) 31).2 = (0, true) ∧
    (ioe_readpin cfg64 all_high_host (g_ioexpander cfg64) 31).1.inval = 2 ^ 64 - 2 ^ 31 ∧
    (g_ioexpander cfg64).inval.testBit 40 = false ∧
    (ioe_readpin cfg64 all_high_host (g_ioexpander cfg64) 31).1.inval.testBit 40 = true ∧
    (ioe_readpin cfg64 (fixture_host 31 false) all_inputs_high64 31).2 = (0, false) ∧
    (ioe_readpin cfg64 (fixture_host 31 false) all_inputs_high64 31).1.inval = 2 ^ 31 - 1 ∧
    all_inputs_high64.inval.testBit 40 = true ∧
    (ioe_readpin cfg64 (fixture_host 31 false) all_inputs_high64 31).1.inval.testBit 40 =
      false := by
  decide

/-- C18: with pin 0 inverted, `ioe_writepin(0, true)` drives the line low, the
host reflects that level back, and `ioe_readpin(0)` returns false, the level
of the line, not the logical value written; likewise writing false reads back
true. -/
theorem ioe_write_then_read_inverted :
    (inverted_pin cfg8 0).invert = 1 ∧
    (ioe_writepin cfg8 all_high_host (inverted_pin cfg8 0) 0 true).2.1.written =
      [(0, false)] ∧
    write_then_read cfg8 all_high_host (inverted_pin cfg8 0) 0 true = false ∧
    (ioe_writepin cfg8 all_high_host (inverted_pin cfg8 0) 0 false).2.1.written =
      [(0, true)] ∧
    write_then_read cfg8 all_high_host (inverted_pin cfg8 0) 0 false = true := by
  decide

/-! ## Reading a pin during the poll cycle -/

/-- Below 31 the `int` shift `1 << pin` does not overflow. -/
theorem int_shl1_eq (p : Nat) (h : p < 31) : int_shl1 p = ((2 ^ p : Nat) : Int) := by
  interval_cases p <;> rfl

theorem int_to_pinset_natCast (w n : Nat) : int_to_pinset w (n : Int) = n % 2 ^ w := by
  unfold int_to_pinset
  have h : ((n : Int) % (2 : Int) ^ w) = ((n % 2 ^ w : Nat) : Int) := by
    push_cast
    rfl
  rw [h, Int.toNat_ofNat]

theorem int_to_pinset_not_natCast (w n : Nat) :
    int_to_pinset w (-(n : Int) - 1) = 2 ^ w - 1 - n % 2 ^ w := by
  unfold int_to_pinset
  have hm : 0 < 2 ^ w := Nat.two_pow_pos w
  have hr : n % 2 ^ w < 2 ^ w := Nat.mod_lt _ hm
  have hdm : (n : Int) =
      ((2 ^ w : Nat) : Int) * ((n / 2 ^ w : Nat) : Int) + ((n % 2 ^ w : Nat) : Int) := by
    exact_mod_cast (Nat.div_add_mod n (2 ^ w)).symm
  have hpow : ((2 : Int) ^ w) = ((2 ^ w : Nat) : Int) := by push_cast; rfl
  have hsub : ((2 ^ w - 1 - n % 2 ^ w : Nat) : Int) =
      ((2 ^ w : Nat) : Int) - 1 - ((n % 2 ^ w : Nat) : Int) := by
    omega
  have hid : -(n : Int) - 1 =
      ((2 ^ w - 1 - n % 2 ^ w : Nat) : Int) +
        ((2 ^ w : Nat) : Int) * (-((n / 2 ^ w : Nat) : Int) - 1) := by
    rw [hsub]
    conv_lhs => rw [hdm]
    ring
  rw [hid, hpow, Int.add_mul_emod_self_left, Int.emod_eq_of_lt (Int.ofNat_nonneg _)
    (by omega), Int.toNat_ofNat]

/-- Function `ioe_readpin` changes no member of the state other than `inval`. -/
theorem ioe_readpin_cb (cfg : ioe_config) (host : host_s) (priv : ioe_dev_s) (p : Nat) :
    (ioe_readpin cfg host priv p).1 =
      { priv with inval := (ioe_readpin cfg host priv p).1.inval } := by
  simp only [ioe_readpin]
  split <;> rfl

/-- Below pin 31, `ioe_readpin` sets or clears exactly the mask
`(ioe_pinset_t)1 << pin` in `inval`, according to the value it read. -/
theorem ioe_readpin_inval (cfg : ioe_config) (host : host_s) (priv : ioe_dev_s) (p : Nat)
    (h : p < 31) :
    (ioe_readpin cfg host priv p).1.inval =
      if (ioe_readpin cfg host priv p).2.2 then
        (priv.inval ||| pinbit (pinset_bits cfg) p) % 2 ^ pinset_bits cfg
      else
        (priv.inval &&& pinset_not (pinset_bits cfg) (pinbit (pinset_bits cfg) p)) %
          2 ^ pinset_bits cfg := by
  have h1 : int_to_pinset (pinset_bits cfg) (int_shl1 p) = pinbit (pinset_bits cfg) p := by
    rw [int_shl1_eq p h, int_to_pinset_natCast, pinbit, Nat.one_shiftLeft]
  have h2 : int_to_pinset (pinset_bits cfg) (-(int_shl1 p) - 1) =
      pinset_not (pinset_bits cfg) (pinbit (pinset_bits cfg) p) := by
    rw [int_shl1_eq p h, int_to_pinset_not_natCast, pinset_not, pinbit, Nat.one_shiftLeft,
      Nat.mod_mod]
  simp only [ioe_readpin, h1, h2]
  split <;> rfl

theorem ioe_readpin_slot (cfg : ioe_config) (host : host_s) (priv : ioe_dev_s) (p j : Nat) :
    (ioe_readpin cfg host priv p).1.slot j = priv.slot j := by
  rw [ioe_readpin_cb]
  rfl

/-- The read loop of the poll cycle returns when the pin index of every
occupied slot it visits can be computed; it leaves the callback table as it
found it. -/
theorem ioe_int_update_read_some (cfg : ioe_config) (host : host_s) :
    ∀ (n i : Nat) (priv : ioe_dev_s),
      (∀ j, i ≤ j → j < i + n → (priv.slot j).cbfunc ≠ 0 →
        IOE_GET_PIN_INDEX cfg (priv.slot j).pinset ≠ none) →
      ∃ priv1, ioe_int_update_read cfg host n i priv = some priv1 ∧
        ∀ j, priv1.slot j = priv.slot j := by
  intro n
  induction n with
  | zero => intro i priv _; exact ⟨priv, rfl, fun _ => rfl⟩
  | succ n ih =>
    intro i priv hterm
    by_cases hocc : (priv.slot i).cbfunc = 0
    · have hrec := ih (i + 1) priv (fun j h1 h2 => hterm j (by omega) (by omega))
      simpa [ioe_int_update_read, hocc] using hrec
    · have hidx := hterm i (Nat.le_refl i) (by omega) hocc
      cases hq : IOE_GET_PIN_INDEX cfg (priv.slot i).pinset with
      | none => exact absurd hq hidx
      | some q =>
        obtain ⟨priv1, h1, h2⟩ := ih (i + 1) (ioe_readpin cfg host priv q).1
          (fun j hj1 hj2 => by
            rw [ioe_readpin_slot]
            exact hterm j (by omega) (by omega))
        refine ⟨priv1, ?_, ?_⟩
        · simp only [ioe_int_update_read, hocc, ne_eq, not_false_eq_true, if_true, hq]
          exact h1
        · intro j
          rw [h2 j, ioe_readpin_slot]

/-- C19 as stated fails: slot 0 is interested in pin 3, bit 3 of `inval` is
set, and the host read of line 3 fails with `errno` 5. After the poll cycle bit
3 of `inval` is clear, not kept. -/
theorem ioe_int_update_failed_read_clears :
    (failing_host 3 5).line 3 = line_read.error 5 ∧
    table_pin3_high.inval.testBit 3 = true ∧
    (ioe_int_update cfg8 (failing_host 3 5) table_pin3_high).map
      (fun r => r.1.inval.testBit 3) = some false := by
  decide

/-- C19, amended: when the host read of pin `p` (below 31) fails during a
poll-triggered read, `ioe_readpin` records the pin as low: bit `p` of `inval`
is cleared whatever it was, every other bit of `inval` and every other member
of the state is unchanged, and the failure code is returned but not acted on.
The read loop goes on with the next callback slot, and the poll cycle returns
a result whenever the pin index of every occupied slot can be computed. -/
theorem ioe_int_update_read_failure (cfg : ioe_config) (host : host_s) (priv : ioe_dev_s)
    (i n p : Nat) (e : Int) (hN : cfg.NPINS ≤ 64) (hp : p < cfg.NPINS) (hp31 : p < 31)
    (hocc : (priv.slot i).cbfunc ≠ 0)
    (hidx : IOE_GET_PIN_INDEX cfg (priv.slot i).pinset = some p)
    (hfail : host.line p = line_read.error e)
    (hterm : ∀ j, j < cfg.NCALLBACKS → (priv.slot j).cbfunc ≠ 0 →
      IOE_GET_PIN_INDEX cfg (priv.slot j).pinset ≠ none) :
    (ioe_readpin cfg host priv p).2 = (e, false) ∧
    (ioe_readpin cfg host priv p).1.inval.testBit p = false ∧
    (∀ j, j ≠ p → j < pinset_bits cfg →
      (ioe_readpin cfg host priv p).1.inval.testBit j = priv.inval.testBit j) ∧
    (ioe_readpin cfg host priv p).1 =
      { priv with inval := (ioe_readpin cfg host priv p).1.inval } ∧
    ioe_int_update_read cfg host (n + 1) i priv =
      ioe_int_update_read cfg host n (i + 1) (ioe_readpin cfg host priv p).1 ∧
    ∃ r, ioe_int_update cfg host priv = some r := by
  have hw : p < pinset_bits cfg := Nat.lt_of_lt_of_le hp (pinset_bits_ge cfg hN)
  have hret : (ioe_readpin cfg host priv p).2 = (e, false) := by
    simp [ioe_readpin, host_ioe_readpin, hfail]
  have hval : (ioe_readpin cfg host priv p).2.2 = false := by rw [hret]
  have hinval := ioe_readpin_inval cfg host priv p hp31
  rw [hval] at hinval
  simp only [Bool.false_eq_true, if_false] at hinval
  refine ⟨hret, ?_, ?_, ioe_readpin_cb cfg host priv p, ?_, ?_⟩
  · rw [hinval, testBit_clear_pin _ _ _ _ hw]
    simp
  · intro j hj hjw
    have hpj : ¬ p = j := fun h => hj h.symm
    rw [hinval, testBit_clear_pin _ _ _ _ hw]
    simp [hjw, hpj]
  · simp only [ioe_int_update_read, hocc, ne_eq, not_false_eq_true, if_true, hidx]
  · obtain ⟨priv1, h1, _⟩ := ioe_int_update_read_some cfg host cfg.NCALLBACKS 0 priv
      (fun j _ hj => hterm j (by omega))
    rw [ioe_int_update, h1]
    exact ⟨_, rfl⟩


theorem ioe_int_update_read_failure_witness :
    (cfg8.NPINS ≤ 64 ∧ 3 < cfg8.NPINS ∧ (table_pin3_high.slot 0).cbfunc ≠ 0 ∧
      IOE_GET_PIN_INDEX cfg8 (table_pin3_high.slot 0).pinset = some 3 ∧
      (failing_host 3 5).line 3 = line_read.error 5) ∧
    (ioe_readpin cfg8 (failing_host 3 5) table_pin3_high 3).2 = (5, false) ∧
    (ioe_readpin cfg8 (failing_host 3 5) table_pin3_high 3).1.inval.testBit 3 = false ∧
    (∀ j, j ≠ 3 → j < pinset_bits cfg8 →
      (ioe_readpin cfg8 (failing_host 3 5) table_pin3_high 3).1.inval.testBit j =
        table_pin3_high.inval.testBit j) ∧
    (ioe_readpin cfg8 (failing_host 3 5) table_pin3_high 3).1 =
      { table_pin3_high with
        inval := (ioe_readpin cfg8 (failing_host 3 5) table_pin3_high 3).1.inval } ∧
    ioe_int_update_read cfg8 (failing_host 3 5) (1 + 1) 0 table_pin3_high =
      ioe_int_update_read cfg8 (failing_host 3 5) 1 (0 + 1)
        (ioe_readpin cfg8 (failing_host 3 5) table_pin3_high 3).1 ∧
    ∃ r, ioe_int_update cfg8 (failing_host 3 5) table_pin3_high = some r :=
  ⟨⟨by decide, by decide, by decide, by decide, by decide⟩,
    ioe_int_update_read_failure cfg8 (failing_host 3 5) table_pin3_high 0 1 3 5 (by decide)
      (by decide) (by decide) (by decide) (by decide) (by decide) (by decide)⟩

/-! ## Pin direction -/

/-- C20 as stated fails: the host reads high on line 2, and after
`ioe_direction` with each of the three input directions bit 2 of `inval` is
still clear. -/
theorem ioe_direction_input_not_seeded :
    all_high_host.line 2 = line_read.value true ∧
    (ioe_direction all_high_host (g_ioexpander cfg8) 2
      IOEXPANDER_DIRECTION_IN).1.inval.testBit 2 = false ∧
    (ioe_direction all_high_host (g_ioexpander cfg8) 2
      IOEXPANDER_DIRECTION_IN_PULLUP).1.inval.testBit 2 = false ∧
    (ioe_direction all_high_host (g_ioexpander cfg8) 2
      IOEXPANDER_DIRECTION_IN_PULLDOWN).1.inval.testBit 2 = false := by
  decide

/-- C20, amended: for a pin below `CONFIG_IOEXPANDER_NPINS`, `ioe_direction`
with an input direction records `pindir[p] = dir` and returns 0; it does not
seed `inval`: `inval` and every member of the driver state other than `pindir`
are unchanged, and nothing is written to the host. -/
theorem ioe_direction_input (cfg : ioe_config) (host : host_s) (priv : ioe_dev_s) (p : Nat)
    (dir : Int) (hlen : priv.pindir.length = cfg.NPINS) (hp : p < cfg.NPINS)
    (hdir : dir = IOEXPANDER_DIRECTION_IN ∨ dir = IOEXPANDER_DIRECTION_IN_PULLUP ∨
      dir = IOEXPANDER_DIRECTION_IN_PULLDOWN) :
    ((ioe_direction host priv p dir).1.pindir[p]?).map Int.ofNat = some dir ∧
    (ioe_direction host priv p dir).1 =
      { priv with pindir := (ioe_direction host priv p dir).1.pindir } ∧
    (ioe_direction host priv p dir).1.inval = priv.inval ∧
    (ioe_direction host priv p dir).2.1.written = host.written ∧
    (ioe_direction host priv p dir).2.2 = 0 := by
  have hpl : p < priv.pindir.length := by rw [hlen]; exact hp
  refine ⟨?_, rfl, rfl, ?_, ?_⟩
  · simp only [ioe_direction, List.getElem?_set_self hpl, Option.map_some']
    rcases hdir with h | h | h <;> subst h <;> rfl
  · rcases hdir with h | h | h <;> subst h <;> rfl
  · rcases hdir with h | h | h <;> subst h <;> rfl

theorem ioe_direction_input_witness :
    ((g_ioexpander cfg8).pindir.length = cfg8.NPINS ∧ 2 < cfg8.NPINS) ∧
    ((ioe_direction all_high_host (g_ioexpander cfg8) 2
      IOEXPANDER_DIRECTION_IN_PULLUP).1.pindir[2]?).map Int.ofNat =
        some IOEXPANDER_DIRECTION_IN_PULLUP ∧
    (ioe_direction all_high_host (g_ioexpander cfg8) 2 IOEXPANDER_DIRECTION_IN_PULLUP).1 =
      { g_ioexpander cfg8 with
        pindir := (ioe_direction all_high_host (g_ioexpander cfg8) 2
          IOEXPANDER_DIRECTION_IN_PULLUP).1.pindir } ∧
    (ioe_direction all_high_host (g_ioexpander cfg8) 2
      IOEXPANDER_DIRECTION_IN_PULLUP).1.inval = (g_ioexpander cfg8).inval ∧
    (ioe_direction all_high_host (g_ioexpander cfg8) 2
      IOEXPANDER_DIRECTION_IN_PULLUP).2.1.written = all_high_host.written ∧
    (ioe_direction all_high_host (g_ioexpander cfg8) 2 IOEXPANDER_DIRECTION_IN_PULLUP).2.2 = 0 :=
  ⟨⟨by decide, by decide⟩,
    ioe_direction_input cfg8 all_high_host (g_ioexpander cfg8) 2 IOEXPANDER_DIRECTION_IN_PULLUP
      (by decide) (by decide) (Or.inr (Or.inl rfl))⟩

/-- C21 as stated fails: with pin 0 inverted, `ioe_direction(0, OUT)` drives
line 0 low, where `ioe_writepin(0, false)` drives it high (false XOR 1); and
with bit 0 of `outval` set, `ioe_direction(0, OUT)` leaves it set, where
`ioe_writepin(0, false)` clears it. -/
theorem ioe_direction_output_not_writepin :
    (inverted_pin cfg8 0).invert.testBit 0 = true ∧
    (ioe_direction all_high_host (inverted_pin cfg8 0) 0
      IOEXPANDER_DIRECTION_OUT).2.1.written = [(0, false)] ∧
    (ioe_writepin cfg8 all_high_host (inverted_pin cfg8 0) 0 false).2.1.written =
      [(0, true)] ∧
    output_high_pin0.outval.testBit 0 = true ∧
    (ioe_direction all_high_host output_high_pin0 0
      IOEXPANDER_DIRECTION_OUT).1.outval.testBit 0 = true ∧
    (ioe_direction all_high_host output_high_pin0 0
      IOEXPANDER_DIRECTION_OUT_OPENDRAIN).1.outval.testBit 0 = true ∧
    (ioe_writepin cfg8 all_high_host output_high_pin0 0 false).1.outval.testBit 0 = false := by
  decide

/-- C21, amended: for a pin below `CONFIG_IOEXPANDER_NPINS`, `ioe_direction`
with an output direction records `pindir[p] = dir`, drives line `p` of the host
low through `host_ioe_writepin` whatever bit `p` of `invert` is, and returns 0
even when that write fails; it does not go through `ioe_writepin`: `outval` and
every member of the driver state other than `pindir` are unchanged. -/
theorem ioe_direction_output (cfg : ioe_config) (host : host_s) (priv : ioe_dev_s) (p : Nat)
    (dir : Int) (hlen : priv.pindir.length = cfg.NPINS) (hp : p < cfg.NPINS)
    (hdir : dir = IOEXPANDER_DIRECTION_OUT ∨ dir = IOEXPANDER_DIRECTION_OUT_OPENDRAIN) :
    ((ioe_direction host priv p dir).1.pindir[p]?).map Int.ofNat = some dir ∧
    (ioe_direction host priv p dir).1 =
      { priv with pindir := (ioe_direction host priv p dir).1.pindir } ∧
    (ioe_direction host priv p dir).1.outval = priv.outval ∧
    (ioe_direction host priv p dir).2.2 = 0 ∧
    (host.write_errno p = none →
      (ioe_direction host priv p dir).2.1.written = host.written ++ [(p, false)]) ∧
    (∀ e : Int, host.write_errno p = some e →
      (ioe_direction host priv p dir).2.1.written = host.written) := by
  have hpl : p < priv.pindir.length := by rw [hlen]; exact hp
  refine ⟨?_, rfl, rfl, ?_, ?_, ?_⟩
  · simp only [ioe_direction, List.getElem?_set_self hpl, Option.map_some']
    rcases hdir with h | h <;> subst h <;> rfl
  · rcases hdir with h | h <;> subst h <;> rfl
  · intro hw
    rcases hdir with h | h <;> subst h <;>
      simp [ioe_direction, host_ioe_direction, host_ioe_writepin, hw,
        IOEXPANDER_DIRECTION_OUT, IOEXPANDER_DIRECTION_OUT_OPENDRAIN, IOEXPANDER_DIRECTION_IN,
        IOEXPANDER_DIRECTION_IN_PULLUP, IOEXPANDER_DIRECTION_IN_PULLDOWN]
  · intro e hw
    rcases hdir with h | h <;> subst h <;>
      simp [ioe_direction, host_ioe_direction, host_ioe_writepin, hw,
        IOEXPANDER_DIRECTION_OUT, IOEXPANDER_DIRECTION_OUT_OPENDRAIN, IOEXPANDER_DIRECTION_IN,
        IOEXPANDER_DIRECTION_IN_PULLUP, IOEXPANDER_DIRECTION_IN_PULLDOWN]

theorem ioe_direction_output_witness :
    ((inverted_pin cfg8 0).pindir.length = cfg8.NPINS ∧ 0 < cfg8.NPINS ∧
      all_high_host.write_errno 0 = none) ∧
    ((ioe_direction all_high_host (inverted_pin cfg8 0) 0
      IOEXPANDER_DIRECTION_OUT).1.pindir[0]?).map Int.ofNat = some IOEXPANDER_DIRECTION_OUT ∧
    (ioe_direction all_high_host (inverted_pin cfg8 0) 0 IOEXPANDER_DIRECTION_OUT).1 =
      { inverted_pin cfg8 0 with
        pindir := (ioe_direction all_high_host (inverted_pin cfg8 0) 0
          IOEXPANDER_DIRECTION_OUT).1.pindir } ∧
    (ioe_direction all_high_host (inverted_pin cfg8 0) 0 IOEXPANDER_DIRECTION_OUT).1.outval =
      (inverted_pin cfg8 0).outval ∧
    (ioe_direction all_high_host (inverted_pin cfg8 0) 0 IOEXPANDER_DIRECTION_OUT).2.2 = 0 ∧
    (ioe_direction all_high_host (inverted_pin cfg8 0) 0
      IOEXPANDER_DIRECTION_OUT).2.1.written = all_high_host.written ++ [(0, false)] :=
  ⟨⟨by decide, by decide, rfl⟩,
    (ioe_direction_output cfg8 all_high_host (inverted_pin cfg8 0) 0 IOEXPANDER_DIRECTION_OUT
      (by decide) (by decide) (Or.inl rfl)).1,
    (ioe_direction_output cfg8 all_high_host (inverted_pin cfg8 0) 0 IOEXPANDER_DIRECTION_OUT
      (by decide) (by decide) (Or.inl rfl)).2.1,
    (ioe_direction_output cfg8 all_high_host (inverted_pin cfg8 0) 0 IOEXPANDER_DIRECTION_OUT
      (by decide) (by decide) (Or.inl rfl)).2.2.1,
    (ioe_direction_output cfg8 all_high_host (inverted_pin cfg8 0) 0 IOEXPANDER_DIRECTION_OUT
      (by decide) (by decide) (Or.inl rfl)).2.2.2.1,
    (ioe_direction_output cfg8 all_high_host (inverted_pin cfg8 0) 0 IOEXPANDER_DIRECTION_OUT
      (by decide) (by decide) (Or.inl rfl)).2.2.2.2.1 rfl⟩

/-! ## Writing several pins -/

/-- On the empty pinset the `while` loop of `IOE_GET_PIN_INDEX` has not exited
after any number of iterations. -/
theorem IOE_GET_PIN_INDEX_loop_zero : ∀ (fuel pin : Nat),
    IOE_GET_PIN_INDEX_loop fuel 0 pin = none := by
  intro fuel
  induction fuel with
  | zero => intro pin; rfl
  | succ f ih =>
    intro pin
    have h := ih (pin + 1)
    simpa [IOE_GET_PIN_INDEX_loop] using h

/-- A result of the `while` loop of `IOE_GET_PIN_INDEX` does not change when
more iterations are allowed. -/
theorem IOE_GET_PIN_INDEX_loop_mono : ∀ (fuel pinset pin r : Nat),
    IOE_GET_PIN_INDEX_loop fuel pinset pin = some r →
    IOE_GET_PIN_INDEX_loop (fuel + 1) pinset pin = some r := by
  intro fuel
  induction fuel with
  | zero => intro pinset pin r h; simp [IOE_GET_PIN_INDEX_loop] at h
  | succ f ih =>
    intro pinset pin r h
    rw [IOE_GET_PIN_INDEX_loop] at h
    rw [IOE_GET_PIN_INDEX_loop]
    by_cases hb : pinset &&& 1 = 0
    · simp only [hb, if_true] at h ⊢
      exact ih _ _ _ h
    · simp only [hb, if_false] at h ⊢
      exact h

/-- On a non-empty pinset of `w` bits the `while` loop of `IOE_GET_PIN_INDEX`
exits within `w` iterations. -/
theorem IOE_GET_PIN_INDEX_loop_some : ∀ (w pinset pin : Nat),
    pinset ≠ 0 → pinset < 2 ^ w → ∃ r, IOE_GET_PIN_INDEX_loop w pinset pin = some r := by
  intro w
  induction w with
  | zero =>
    intro pinset pin h0 hlt
    simp at hlt
    exact absurd hlt h0
  | succ w ih =>
    intro pinset pin h0 hlt
    rw [IOE_GET_PIN_INDEX_loop]
    by_cases hb : pinset &&& 1 = 0
    · simp only [hb, if_true]
      have hmod : pinset % 2 = 0 := by rw [← Nat.and_one_is_mod]; exact hb
      have hne : pinset >>> 1 ≠ 0 := by
        rw [Nat.shiftRight_eq_div_pow]
        simp only [Nat.pow_one]
        omega
      have hl : pinset >>> 1 < 2 ^ w := by
        rw [Nat.shiftRight_eq_div_pow]
        simp only [Nat.pow_one]
        rw [Nat.pow_succ] at hlt
        omega
      exact ih _ _ hne hl
    · simp only [hb, if_false]
      exact ⟨pin, rfl⟩

/-- The macro `IOE_GET_PIN_INDEX` yields a pin index on every non-empty pinset
that fits `ioe_pinset_t`. -/
theorem IOE_GET_PIN_INDEX_ne_none (cfg : ioe_config) (pinset : Nat) (h0 : pinset ≠ 0)
    (hlt : pinset < 2 ^ pinset_bits cfg) : IOE_GET_PIN_INDEX cfg pinset ≠ none := by
  unfold IOE_GET_PIN_INDEX
  split
  · obtain ⟨r, hr⟩ := IOE_GET_PIN_INDEX_loop_some (pinset_bits cfg) pinset 0 h0 hlt
    rw [IOE_GET_PIN_INDEX_loop_mono _ _ _ _ hr]
    simp
  · simp

/-- The read loop of the poll cycle changes no member of the state other than
`inval`. -/
theorem ioe_int_update_read_frame (cfg : ioe_config) (host : host_s) :
    ∀ (n i : Nat) (priv priv1 : ioe_dev_s),
      ioe_int_update_read cfg host n i priv = some priv1 →
      priv1 = { priv with inval := priv1.inval } := by
  intro n
  induction n with
  | zero =>
    intro i priv priv1 h
    simp only [ioe_int_update_read, Option.some.injEq] at h
    rw [← h]
  | succ n ih =>
    intro i priv priv1 h
    rw [ioe_int_update_read] at h
    by_cases hocc : (priv.slot i).cbfunc = 0
    · simp only [hocc, ne_eq, not_true_eq_false, if_false] at h
      exact ih _ _ _ h
    · simp only [hocc, ne_eq, not_false_eq_true, if_true] at h
      cases hq : IOE_GET_PIN_INDEX cfg (priv.slot i).pinset with
      | none => rw [hq] at h; simp at h
      | some q =>
        rw [hq] at h
        have h1 := ih _ _ _ h
        have h2 := ioe_readpin_cb cfg host priv q
        rw [h1, h2]

/-- The pin loop of the poll cycle reads the state only through `invert`,
`intenab`, `trigger` and the two `level` masks. -/
theorem ioe_int_update_pins_congr (w : Nat) (priv q : ioe_dev_s)
    (h1 : q.invert = priv.invert) (h2 : q.intenab = priv.intenab)
    (h3 : q.trigger = priv.trigger) (h4 : q.level0 = priv.level0)
    (h5 : q.level1 = priv.level1) :
    ∀ (n pin diff input intstat : Nat),
      ioe_int_update_pins w q n pin diff input intstat =
        ioe_int_update_pins w priv n pin diff input intstat := by
  intro n
  induction n with
  | zero => intro pin diff input intstat; rfl
  | succ n ih =>
    intro pin diff input intstat
    simp only [ioe_int_update_pins, IOE_INT_DISABLED, IOE_EDGE_SENSITIVE, IOE_EDGE_FALLING,
      IOE_EDGE_RISING, IOE_LEVEL_HIGH, IOE_LEVEL_LOW, h1, h2, h3, h4, h5, ih]

/-- The poll cycle in terms of its read loop: `last` and `inval` both end as the
`inval` the reads produced, and `intstat` is the pin loop run on that value and
on the `last` the cycle started with. -/
theorem ioe_int_update_eq (cfg : ioe_config) (host : host_s) (priv priv1 : ioe_dev_s)
    (h : ioe_int_update_read cfg host cfg.NCALLBACKS 0 priv = some priv1) :
    ioe_int_update cfg host priv =
      some ({ priv with inval := priv1.inval, last := priv1.inval },
        ioe_int_update_pins (pinset_bits cfg) priv cfg.NPINS 0 (priv.last ^^^ priv1.inval)
          priv1.inval 0) := by
  have hf := ioe_int_update_read_frame cfg host _ _ _ _ h
  have hlast : priv1.last = priv.last := by rw [hf]
  have hcongr := ioe_int_update_pins_congr (pinset_bits cfg) priv
    { priv1 with last := priv1.inval } (by rw [hf]) (by rw [hf]) (by rw [hf]) (by rw [hf])
    (by rw [hf]) cfg.NPINS 0 (priv.last ^^^ priv1.inval) priv1.inval 0
  simp only [ioe_int_update, h, hlast, hcongr]
  congr 2
  rw [hf]

/-- The poll cycle does not return when its read loop does not. -/
theorem ioe_int_update_none (cfg : ioe_config) (host : host_s) (priv : ioe_dev_s)
    (h : ioe_int_update_read cfg host cfg.NCALLBACKS 0 priv = none) :
    ioe_int_update cfg host priv = none := by
  simp only [ioe_int_update, h]

/-- The poll cycle changes no member of the state other than `inval` and
`last`. -/
theorem ioe_int_update_frame (cfg : ioe_config) (host : host_s) (priv priv2 : ioe_dev_s)
    (intstat : Nat) (h : ioe_int_update cfg host priv = some (priv2, intstat)) :
    priv2 = { priv with inval := priv2.inval, last := priv2.last } := by
  cases hr : ioe_int_update_read cfg host cfg.NCALLBACKS 0 priv with
  | none => rw [ioe_int_update_none cfg host priv hr] at h; simp at h
  | some priv1 =>
    rw [ioe_int_update_eq cfg host priv priv1 hr] at h
    simp only [Option.some.injEq, Prod.mk.injEq] at h
    rw [← h.1]

/-- Bits of the `intstat` of a whole pin loop: pin `i` tests bit `i` of `diff`
and takes its level from bit `i + i` of `input`. -/
theorem ioe_int_update_intstat_testBit (cfg : ioe_config) (priv : ioe_dev_s) (diff input i : Nat)
    (hN : cfg.NPINS ≤ 64) :
    (ioe_int_update_pins (pinset_bits cfg) priv cfg.NPINS 0 diff input 0).testBit i =
      (decide (i < cfg.NPINS) &&
        pin_event priv i (diff.testBit i) (input.testBit (i + i) ^^ priv.invert.testBit i)) := by
  rw [ioe_int_update_pins_testBit (pinset_bits cfg) priv cfg.NPINS 0 diff input 0 i
    (by have := pinset_bits_ge cfg hN; omega) (by simp)]
  by_cases hi : i < cfg.NPINS
  · simp [hi]
  · simp [hi]

/-- C23: when the poll cycle returns (the pin index of every occupied slot can
be computed, at most 64 pins), `last` ends equal to the `inval` produced by the
refresh reads of that cycle, `inval` is that same value, and the pending set
is the pin loop run on that one value of `inval` and on the `last` the cycle
started with: bit `i` is decided by bit `i` of `last XOR inval`, by the
snapshot (the loop takes the level from bit `i + i` of it) and by the pin's
configuration bits. -/
theorem ioe_int_update_snapshot (cfg : ioe_config) (host : host_s) (priv : ioe_dev_s)
    (hN : cfg.NPINS ≤ 64)
    (hterm : ∀ j, j < cfg.NCALLBACKS → (priv.slot j).cbfunc ≠ 0 →
      IOE_GET_PIN_INDEX cfg (priv.slot j).pinset ≠ none) :
    ∃ priv1, ioe_int_update_read cfg host cfg.NCALLBACKS 0 priv = some priv1 ∧
      ∃ priv2 intstat, ioe_int_update cfg host priv = some (priv2, intstat) ∧
        priv2.inval = priv1.inval ∧ priv2.last = priv1.inval ∧
        intstat = ioe_int_update_pins (pinset_bits cfg) priv cfg.NPINS 0
          (priv.last ^^^ priv1.inval) priv1.inval 0 ∧
        ∀ i, intstat.testBit i =
          (decide (i < cfg.NPINS) &&
            pin_event priv i ((priv.last ^^^ priv1.inval).testBit i)
              (priv1.inval.testBit (i + i) ^^ priv.invert.testBit i)) := by
  obtain ⟨priv1, h1, _⟩ := ioe_int_update_read_some cfg host cfg.NCALLBACKS 0 priv
    (fun j _ hj => hterm j (by omega))
  refine ⟨priv1, h1, _, _, ioe_int_update_eq cfg host priv priv1 h1, rfl, rfl, rfl, ?_⟩
  intro i
  exact ioe_int_update_intstat_testBit cfg priv _ _ i hN

theorem ioe_int_update_snapshot_witness :
    (cfg8.NPINS ≤ 64 ∧
      ∀ j, j < cfg8.NCALLBACKS →
        ((configured_pin cfg8 3 IOEXPANDER_VAL_RISING).slot j).cbfunc ≠ 0 →
        IOE_GET_PIN_INDEX cfg8 ((configured_pin cfg8 3 IOEXPANDER_VAL_RISING).slot j).pinset ≠
          none) ∧
    ∃ priv1, ioe_int_update_read cfg8 (fixture_host 3 true) cfg8.NCALLBACKS 0
        (configured_pin cfg8 3 IOEXPANDER_VAL_RISING) = some priv1 ∧
      ∃ priv2 intstat, ioe_int_update cfg8 (fixture_host 3 true)
          (configured_pin cfg8 3 IOEXPANDER_VAL_RISING) = some (priv2, intstat) ∧
        priv2.inval = priv1.inval ∧ priv2.last = priv1.inval ∧
        intstat = ioe_int_update_pins (pinset_bits cfg8)
          (configured_pin cfg8 3 IOEXPANDER_VAL_RISING) cfg8.NPINS 0
          ((configured_pin cfg8 3 IOEXPANDER_VAL_RISING).last ^^^ priv1.inval) priv1.inval 0 ∧
        ∀ i, intstat.testBit i =
          (decide (i < cfg8.NPINS) &&
            pin_event (configured_pin cfg8 3 IOEXPANDER_VAL_RISING) i
              (((configured_pin cfg8 3 IOEXPANDER_VAL_RISING).last ^^^ priv1.inval).testBit i)
              (priv1.inval.testBit (i + i) ^^
                (configured_pin cfg8 3 IOEXPANDER_VAL_RISING).invert.testBit i)) :=
  ⟨⟨by decide, by decide⟩,
    ioe_int_update_snapshot cfg8 (fixture_host 3 true)
      (configured_pin cfg8 3 IOEXPANDER_VAL_RISING) (by decide) (by decide)⟩

/-- C24: on a sixty-four-pin expander whose only callback is interested in pin
31, with the host reading high, one poll cycle reads back pin 31 alone and yet
sets bits 31 to 63 of `inval`, among them bit 40, a pin that is not read
back. -/
theorem ioe_int_update_pin31_spills :
    IOE_GET_PIN_INDEX cfg64 (table_pin31_64.slot 0).pinset = some 31 ∧
    (table_pin31_64.slot 1).cbfunc = 0 ∧
    table_pin31_64.inval.testBit 40 = false ∧
    (ioe_int_update cfg64 all_high_host table_pin31_64).map
      (fun r => (r.1.inval, r.1.inval.testBit 40)) = some (2 ^ 64 - 2 ^ 31, true) := by
  decide


/-- C25: from the initialised device, `ioe_option` with BOTH and then with
DISABLE on pin 2, both recognised values, leaves the pin enabled and
level-sensitive with both level bits set, which encodes no trigger. -/
theorem ioe_option_both_then_disable_invalid :
    decode_trigger 8 ( sim_ioe_initialize cfg8) 2 = some InterruptTrigger.Disabled ∧
    decode_trigger 8
      (ioe_option cfg8 ( sim_ioe_initialize cfg8) 2 IOEXPANDER_OPTION_INTCFG
        IOEXPANDER_VAL_BOTH).1 2 = some InterruptTrigger.EdgeBoth ∧
    (both_then_disabled.intenab.testBit 2, both_then_disabled.trigger.testBit 2,
      both_then_disabled.level0.testBit 2, both_then_disabled.level1.testBit 2) =
      (true, false, true, true) ∧
    decode_trigger 8 both_then_disabled 2 = none := by
  decide


/-- C26: the `while` loop of `IOE_GET_PIN_INDEX` never exits on the empty
pinset, whatever number of iterations it is given. `ioe_attach` accepts the
empty interest mask with a non-`NULL` handler, and the next poll cycle on that
table does not return. -/
theorem ioe_int_update_empty_pinset_hangs :
    (∀ fuel pin : Nat, IOE_GET_PIN_INDEX_loop fuel 0 pin = none) ∧
    (ioe_attach cfg8 (g_ioexpander cfg8) 0 17 0).2 = some 0 ∧
    (ioe_attach cfg8 (g_ioexpander cfg8) 0 17 0).1.slot 0 = ⟨0, 17, 0⟩ ∧
    IOE_GET_PIN_INDEX cfg8 0 = none ∧
    ioe_int_update cfg8 all_high_host (ioe_attach cfg8 (g_ioexpander cfg8) 0 17 0).1 = none := by
  refine ⟨IOE_GET_PIN_INDEX_loop_zero, by decide, by decide, by decide, by decide⟩

/-- C27: with at most 64 pins, every pending set returned by `ioe_int_update`
has bits only at pins below `CONFIG_IOEXPANDER_NPINS` whose `intenab` bit is
set (and `intenab` is not changed by the cycle); a pending set is returned
whenever the pin index of every occupied slot can be computed. -/
theorem ioe_int_update_pending_subset (cfg : ioe_config) (host : host_s) (priv : ioe_dev_s)
    (hN : cfg.NPINS ≤ 64) :
    (∀ (priv2 : ioe_dev_s) (intstat : Nat),
      ioe_int_update cfg host priv = some (priv2, intstat) →
        (∀ i, intstat.testBit i = true → i < cfg.NPINS ∧ priv.intenab.testBit i = true) ∧
        intstat < 2 ^ cfg.NPINS ∧ intstat &&& priv.intenab = intstat ∧
        priv2.intenab = priv.intenab) ∧
    ((∀ j, j < cfg.NCALLBACKS → (priv.slot j).cbfunc ≠ 0 →
        IOE_GET_PIN_INDEX cfg (priv.slot j).pinset ≠ none) →
      ∃ r, ioe_int_update cfg host priv = some r) := by
  constructor
  · intro priv2 intstat h
    have hbits : ∀ i, intstat.testBit i = true →
        i < cfg.NPINS ∧ priv.intenab.testBit i = true := by
      intro i hi
      cases hr : ioe_int_update_read cfg host cfg.NCALLBACKS 0 priv with
      | none => rw [ioe_int_update_none cfg host priv hr] at h; simp at h
      | some priv1 =>
        rw [ioe_int_update_eq cfg host priv priv1 hr] at h
        simp only [Option.some.injEq, Prod.mk.injEq] at h
        rw [← h.2, ioe_int_update_intstat_testBit cfg priv _ _ i hN] at hi
        simp only [pin_event, Bool.and_eq_true, decide_eq_true_eq] at hi
        exact ⟨hi.1, hi.2.1⟩
    refine ⟨hbits, ?_, ?_, ?_⟩
    · apply Nat.lt_pow_two_of_testBit
      intro i hi
      cases hb : intstat.testBit i with
      | false => rfl
      | true => have := (hbits i hb).1; omega
    · apply Nat.eq_of_testBit_eq
      intro i
      rw [Nat.testBit_and]
      cases hb : intstat.testBit i with
      | false => rfl
      | true => rw [(hbits i hb).2]; rfl
    · rw [ioe_int_update_frame cfg host priv priv2 intstat h]
  · intro hterm
    obtain ⟨priv1, h1, _⟩ := ioe_int_update_read_some cfg host cfg.NCALLBACKS 0 priv
      (fun j _ hj => hterm j (by omega))
    exact ⟨_, ioe_int_update_eq cfg host priv priv1 h1⟩

theorem ioe_int_update_pending_subset_witness :
    cfg8.NPINS ≤ 64 ∧
    ∃ r, ioe_int_update cfg8 (fixture_host 0 true)
        (configured_pin cfg8 0 IOEXPANDER_VAL_HIGH) = some r ∧
      r.2 < 2 ^ cfg8.NPINS ∧
      r.2 &&& (configured_pin cfg8 0 IOEXPANDER_VAL_HIGH).intenab = r.2 :=
  ⟨by decide,
    match (ioe_int_update_pending_subset cfg8 (fixture_host 0 true)
      (configured_pin cfg8 0 IOEXPANDER_VAL_HIGH) (by decide)).2 (by decide) with
    | ⟨r, hr⟩ =>
      ⟨r, hr,
        ((ioe_int_update_pending_subset cfg8 (fixture_host 0 true)
          (configured_pin cfg8 0 IOEXPANDER_VAL_HIGH) (by decide)).1 r.1 r.2 hr).2.1,
        ((ioe_int_update_pending_subset cfg8 (fixture_host 0 true)
          (configured_pin cfg8 0 IOEXPANDER_VAL_HIGH) (by decide)).1 r.1 r.2 hr).2.2.1⟩⟩

/-! ## Two consecutive attachments -/

/-- What a handle returned by the `ioe_attach` loop tells: the slot was free
and is the only one changed. -/
theorem ioe_attach_loop_some (pinset callback arg : Nat) (priv : ioe_dev_s) :
    ∀ (n i h : Nat), (ioe_attach_loop pinset callback arg n i priv).2 = some h →
      (priv.slot h).cbfunc = 0 ∧
      (ioe_attach_loop pinset callback arg n i priv).1 =
        { priv with cb := priv.cb.set h ⟨pinset, callback, arg⟩ } := by
  intro n
  induction n with
  | zero => intro i h hh; simp [ioe_attach_loop] at hh
  | succ n ih =>
    intro i h hh
    by_cases hfree : (priv.slot i).cbfunc = 0
    · simp only [ioe_attach_loop, hfree, if_true, Option.some.injEq] at hh ⊢
      subst hh
      exact ⟨hfree, rfl⟩
    · simp only [ioe_attach_loop, hfree, if_false] at hh ⊢
      exact ih (i + 1) h hh

/-- C28 as stated fails: an `ioe_attach` with a `NULL` callback returns a
handle to slot 0 but leaves that slot free, so the next `ioe_attach` returns
slot 0 again and overwrites what the first call stored. -/
theorem ioe_attach_null_callback_same_slot :
    (ioe_attach cfg8 (g_ioexpander cfg8) 1 0 5).2 = some 0 ∧
    (ioe_attach cfg8 (ioe_attach cfg8 (g_ioexpander cfg8) 1 0 5).1 2 17 6).2 = some 0 ∧
    (ioe_attach cfg8 (ioe_attach cfg8 (g_ioexpander cfg8) 1 0 5).1 2 17 6).1.slot 0 =
      ⟨2, 17, 6⟩ := by
  decide

/-- C28, amended: when the first of two consecutive `ioe_attach` calls has a
non-`NULL` callback and both calls return a handle, the two handles reference
different slots and the first slot still holds the first call's
`(pinset, callback, arg)` after the second call, whatever the second call's
arguments are. -/
theorem ioe_attach_twice_distinct (cfg : ioe_config) (priv : ioe_dev_s)
    (pinset1 callback1 arg1 pinset2 callback2 arg2 h1 h2 : Nat)
    (hlen : priv.cb.length = cfg.NCALLBACKS) (hcb : callback1 ≠ 0)
    (hfirst : (ioe_attach cfg priv pinset1 callback1 arg1).2 = some h1)
    (hsecond : (ioe_attach cfg (ioe_attach cfg priv pinset1 callback1 arg1).1
      pinset2 callback2 arg2).2 = some h2) :
    h1 ≠ h2 ∧
    (ioe_attach cfg (ioe_attach cfg priv pinset1 callback1 arg1).1
      pinset2 callback2 arg2).1.slot h1 = ⟨pinset1, callback1, arg1⟩ := by
  have hlt : h1 < priv.cb.length := by
    rw [hlen]
    exact ioe_attach_handle_lt cfg priv pinset1 callback1 arg1 h1 hfirst
  obtain ⟨_, hst1⟩ := ioe_attach_loop_some pinset1 callback1 arg1 priv cfg.NCALLBACKS 0 h1 hfirst
  have hslot1 : (ioe_attach cfg priv pinset1 callback1 arg1).1.slot h1 =
      ⟨pinset1, callback1, arg1⟩ := by
    rw [ioe_attach, hst1]
    exact slot_set_self priv h1 _ hlt
  obtain ⟨hfree2, hst2⟩ := ioe_attach_loop_some pinset2 callback2 arg2
    (ioe_attach cfg priv pinset1 callback1 arg1).1 cfg.NCALLBACKS 0 h2 hsecond
  have hne : h1 ≠ h2 := by
    intro heq
    rw [← heq, hslot1] at hfree2
    exact hcb hfree2
  refine ⟨hne, ?_⟩
  rw [ioe_attach, hst2]
  rw [slot_set_ne _ h2 h1 _ hne]
  exact hslot1

theorem ioe_attach_twice_distinct_witness :
    ((g_ioexpander cfg8).cb.length = cfg8.NCALLBACKS ∧ (17 : Nat) ≠ 0 ∧
      (ioe_attach cfg8 (g_ioexpander cfg8) 1 17 5).2 = some 0 ∧
      (ioe_attach cfg8 (ioe_attach cfg8 (g_ioexpander cfg8) 1 17 5).1 2 0 6).2 = some 1) ∧
    (0 : Nat) ≠ 1 ∧
    (ioe_attach cfg8 (ioe_attach cfg8 (g_ioexpander cfg8) 1 17 5).1 2 0 6).1.slot 0 =
      ⟨1, 17, 5⟩ :=
  ⟨⟨by decide, by decide, by decide, by decide⟩,
    ioe_attach_twice_distinct cfg8 (g_ioexpander cfg8) 1 17 5 2 0 6 0 1 (by decide) (by decide)
      (by decide) (by decide)⟩

end SimIoexpander
